import Mathlib

/-!
Verification of the tealish compiler core (`tealish/nodes.py`) against its
natural-language specification.  Shallow embedding: each relevant Python
function is translated into an executable Lean definition, and the spec
claims are settled as theorems about those definitions.

Conventions:
* Python strings are modelled as `String` or `List Char` (for the character
  scanning functions).
* Emitted TEAL is modelled as `List String`, one entry per `writer.write`
  call.
* Fallible passes (`consume`, `process`) return `Except`.
-/

namespace Tealish

/-! ## `split_return_args` (nodes.py lines 2042-2055)

```python
def split_return_args(s):
    parentheses = 0
    quotes = False
    for i in range(len(s)):
        if s[i] == chr(34):
            quotes = not quotes
        if not quotes:
            if s[i] == "(":
                parentheses += 1
            if s[i] == ")":
                parentheses -= 1
            if parentheses == 0 and s[i] == ",":
                return [s[:i].strip()] + split_return_args(s[i + 1 :].strip())
    return [s]
```
The scan toggles `quotes` before testing it, so a quote character is
processed with the post-toggle state.  `parentheses` may go negative,
hence `Int`. -/

/-- Quote state after processing one character. -/
def nextQuotes (c : Char) (q : Bool) : Bool := if c = '"' then !q else q

/-- Parenthesis depth after processing one character (outside quotes). -/
def nextParens (c : Char) (p : Int) : Int :=
  if c = '(' then p + 1 else if c = ')' then p - 1 else p

/-- Index of the first comma at parenthesis depth zero outside quotes,
scanning with the given initial `quotes`/`parentheses` state (mirrors the
`for i in range(len(s))` loop of `split_return_args`). -/
def findSplitIdx : List Char → Bool → Int → Option Nat
  | [], _, _ => none
  | c :: rest, q, p =>
    if nextQuotes c q then (findSplitIdx rest (nextQuotes c q) p).map (· + 1)
    else if nextParens c p = 0 ∧ c = ',' then some 0
    else (findSplitIdx rest (nextQuotes c q) (nextParens c p)).map (· + 1)

/-- Python `str.strip()` on a character list. -/
def stripChars (s : List Char) : List Char :=
  ((s.dropWhile Char.isWhitespace).reverse.dropWhile Char.isWhitespace).reverse

theorem stripChars_length_le (s : List Char) : (stripChars s).length ≤ s.length := by
  unfold stripChars
  calc ((s.dropWhile Char.isWhitespace).reverse.dropWhile Char.isWhitespace).reverse.length
      = ((s.dropWhile Char.isWhitespace).reverse.dropWhile Char.isWhitespace).length := by
        rw [List.length_reverse]
    _ ≤ (s.dropWhile Char.isWhitespace).reverse.length :=
        (List.dropWhile_sublist _).length_le
    _ = (s.dropWhile Char.isWhitespace).length := by rw [List.length_reverse]
    _ ≤ s.length := (List.dropWhile_sublist _).length_le

theorem findSplitIdx_lt_length {s : List Char} {q : Bool} {p : Int} {i : Nat}
    (h : findSplitIdx s q p = some i) : i < s.length := by
  induction s generalizing q p i with
  | nil => simp [findSplitIdx] at h
  | cons c rest ih =>
    simp only [findSplitIdx] at h
    by_cases hq : nextQuotes c q
    · rw [if_pos hq] at h
      obtain ⟨j, hj, hji⟩ := Option.map_eq_some'.mp h
      have := ih hj
      simp only [List.length_cons]
      omega
    · rw [if_neg hq] at h
      by_cases hc : nextParens c p = 0 ∧ c = ','
      · rw [if_pos hc] at h
        simp only [Option.some.injEq] at h
        simp [← h]
      · rw [if_neg hc] at h
        obtain ⟨j, hj, hji⟩ := Option.map_eq_some'.mp h
        have := ih hj
        simp only [List.length_cons]
        omega

/-- Function `split_return_args` (nodes.py): splits the return-argument string at
top-level commas outside quotes, stripping each piece before recursing. -/
def split_return_args (s : List Char) : List (List Char) :=
  match h : findSplitIdx s false 0 with
  | some i =>
    stripChars (s.take i) :: split_return_args (stripChars (s.drop (i + 1)))
  | none => [s]
termination_by s.length
decreasing_by
  have hi := findSplitIdx_lt_length h
  have h1 := stripChars_length_le (s.drop (i + 1))
  have h2 : (s.drop (i + 1)).length = s.length - (i + 1) := by
    simp [List.length_drop]
  omega

/-- Number of splitting commas (depth-zero, outside quotes) seen by the same
scan as `findSplitIdx`, continuing over the whole string. -/
def countSplitCommas : List Char → Bool → Int → Nat
  | [], _, _ => 0
  | c :: rest, q, p =>
    if nextQuotes c q then countSplitCommas rest (nextQuotes c q) p
    else if nextParens c p = 0 ∧ c = ',' then
      1 + countSplitCommas rest (nextQuotes c q) (nextParens c p)
    else countSplitCommas rest (nextQuotes c q) (nextParens c p)

theorem countSplitCommas_of_none {s : List Char} {q : Bool} {p : Int}
    (h : findSplitIdx s q p = none) : countSplitCommas s q p = 0 := by
  induction s generalizing q p with
  | nil => simp [countSplitCommas]
  | cons c rest ih =>
    simp only [findSplitIdx] at h
    simp only [countSplitCommas]
    by_cases hq : nextQuotes c q
    · rw [if_pos hq] at h ⊢
      exact ih (by simpa using h)
    · rw [if_neg hq] at h ⊢
      by_cases hc : nextParens c p = 0 ∧ c = ','
      · rw [if_pos hc] at h
        simp at h
      · rw [if_neg hc] at h ⊢
        exact ih (by simpa using h)

theorem countSplitCommas_of_some {s : List Char} {q : Bool} {p : Int} {i : Nat}
    (h : findSplitIdx s q p = some i) :
    countSplitCommas s q p = 1 + countSplitCommas (s.drop (i + 1)) false 0 := by
  induction s generalizing q p i with
  | nil => simp [findSplitIdx] at h
  | cons c rest ih =>
    simp only [findSplitIdx] at h
    simp only [countSplitCommas]
    by_cases hq : nextQuotes c q
    · rw [if_pos hq] at h ⊢
      obtain ⟨j, hj, hji⟩ := Option.map_eq_some'.mp h
      subst hji
      simpa using ih hj
    · rw [if_neg hq] at h ⊢
      by_cases hc : nextParens c p = 0 ∧ c = ','
      · rw [if_pos hc] at h ⊢
        simp only [Option.some.injEq] at h
        subst h
        simp only [List.drop_succ_cons, List.drop_zero]
        have hq2 : nextQuotes c q = false := by simpa using hq
        rw [hq2, hc.1]
      · rw [if_neg hc] at h ⊢
        obtain ⟨j, hj, hji⟩ := Option.map_eq_some'.mp h
        subst hji
        simpa using ih hj

/-- Scan state (quotes, parentheses) after processing a list of characters,
threading exactly as the `split_return_args` loop does. -/
def scanState : List Char → Bool × Int → Bool × Int
  | [], st => st
  | c :: rest, (q, p) =>
    if nextQuotes c q then scanState rest (nextQuotes c q, p)
    else scanState rest (nextQuotes c q, nextParens c p)

theorem countSplitCommas_append (a b : List Char) (q : Bool) (p : Int) :
    countSplitCommas (a ++ b) q p =
      countSplitCommas a q p +
      countSplitCommas b (scanState a (q, p)).1 (scanState a (q, p)).2 := by
  induction a generalizing q p with
  | nil => simp [countSplitCommas, scanState]
  | cons c rest ih =>
    simp only [List.cons_append, countSplitCommas, scanState, List.append_eq]
    by_cases hq : nextQuotes c q
    · rw [if_pos hq, if_pos hq, if_pos hq]
      exact ih _ _
    · rw [if_neg hq, if_neg hq, if_neg hq]
      by_cases hc : nextParens c p = 0 ∧ c = ','
      · rw [if_pos hc, if_pos hc]
        rw [ih]
        omega
      · rw [if_neg hc, if_neg hc]
        exact ih _ _

theorem nextQuotes_of_ws {c : Char} (hc : c.isWhitespace) (q : Bool) :
    nextQuotes c q = q := by
  have : c ≠ '"' := by
    simp only [Char.isWhitespace] at hc
    rcases Bool.or_eq_true_iff.mp hc with h | h
    · rcases Bool.or_eq_true_iff.mp h with h | h
      · rcases Bool.or_eq_true_iff.mp h with h | h <;>
          · rw [decide_eq_true_iff] at h; subst h; decide
      · rw [decide_eq_true_iff] at h; subst h; decide
    · rw [decide_eq_true_iff] at h; subst h; decide
  simp [nextQuotes, this]

theorem nextParens_of_ws {c : Char} (hc : c.isWhitespace) (p : Int) :
    nextParens c p = p := by
  have h1 : c ≠ '(' := by
    simp only [Char.isWhitespace] at hc
    rcases Bool.or_eq_true_iff.mp hc with h | h
    · rcases Bool.or_eq_true_iff.mp h with h | h
      · rcases Bool.or_eq_true_iff.mp h with h | h <;>
          · rw [decide_eq_true_iff] at h; subst h; decide
      · rw [decide_eq_true_iff] at h; subst h; decide
    · rw [decide_eq_true_iff] at h; subst h; decide
  have h2 : c ≠ ')' := by
    simp only [Char.isWhitespace] at hc
    rcases Bool.or_eq_true_iff.mp hc with h | h
    · rcases Bool.or_eq_true_iff.mp h with h | h
      · rcases Bool.or_eq_true_iff.mp h with h | h <;>
          · rw [decide_eq_true_iff] at h; subst h; decide
      · rw [decide_eq_true_iff] at h; subst h; decide
    · rw [decide_eq_true_iff] at h; subst h; decide
  simp [nextParens, h1, h2]

theorem comma_not_ws {c : Char} (hc : c.isWhitespace) : c ≠ ',' := by
  simp only [Char.isWhitespace] at hc
  rcases Bool.or_eq_true_iff.mp hc with h | h
  · rcases Bool.or_eq_true_iff.mp h with h | h
    · rcases Bool.or_eq_true_iff.mp h with h | h <;>
        · rw [decide_eq_true_iff] at h; subst h; decide
    · rw [decide_eq_true_iff] at h; subst h; decide
  · rw [decide_eq_true_iff] at h; subst h; decide

theorem countSplitCommas_ws {w : List Char} (hw : ∀ c ∈ w, c.isWhitespace)
    (q : Bool) (p : Int) : countSplitCommas w q p = 0 := by
  induction w generalizing q p with
  | nil => simp [countSplitCommas]
  | cons c rest ih =>
    have hc := hw c (List.mem_cons_self _ _)
    have hrest : ∀ x ∈ rest, x.isWhitespace := fun x hx => hw x (List.mem_cons_of_mem _ hx)
    simp only [countSplitCommas, nextQuotes_of_ws hc, nextParens_of_ws hc]
    by_cases hq : q
    · rw [if_pos hq]; exact ih hrest _ _
    · rw [if_neg hq]
      have : ¬(p = 0 ∧ c = ',') := fun h => comma_not_ws hc h.2
      rw [if_neg this]
      exact ih hrest _ _

theorem scanState_ws {w : List Char} (hw : ∀ c ∈ w, c.isWhitespace)
    (q : Bool) (p : Int) : scanState w (q, p) = (q, p) := by
  induction w generalizing q p with
  | nil => simp [scanState]
  | cons c rest ih =>
    have hc := hw c (List.mem_cons_self _ _)
    have hrest : ∀ x ∈ rest, x.isWhitespace := fun x hx => hw x (List.mem_cons_of_mem _ hx)
    simp only [scanState, nextQuotes_of_ws hc, nextParens_of_ws hc]
    by_cases hq : q
    · rw [if_pos hq]; exact ih hrest _ _
    · rw [if_neg hq]; exact ih hrest _ _

theorem countSplitCommas_stripChars (s : List Char) :
    countSplitCommas (stripChars s) false 0 = countSplitCommas s false 0 := by
  have hw1 : ∀ c ∈ s.takeWhile Char.isWhitespace, c.isWhitespace :=
    fun c hc => List.mem_takeWhile_imp hc
  have hw2 : ∀ c ∈ ((s.dropWhile Char.isWhitespace).reverse.takeWhile
      Char.isWhitespace).reverse, c.isWhitespace := by
    intro c hc
    rw [List.mem_reverse] at hc
    exact List.mem_takeWhile_imp hc
  have hd : s.dropWhile Char.isWhitespace
      = stripChars s ++ ((s.dropWhile Char.isWhitespace).reverse.takeWhile
          Char.isWhitespace).reverse := by
    have h0 := List.takeWhile_append_dropWhile Char.isWhitespace
      (s.dropWhile Char.isWhitespace).reverse
    have h1 := congrArg List.reverse h0
    rw [List.reverse_append, List.reverse_reverse] at h1
    exact h1.symm
  have hs : s = s.takeWhile Char.isWhitespace ++ s.dropWhile Char.isWhitespace :=
    (List.takeWhile_append_dropWhile _ _).symm
  conv_rhs => rw [hs]
  rw [countSplitCommas_append, countSplitCommas_ws hw1, scanState_ws hw1]
  rw [hd, countSplitCommas_append, countSplitCommas_ws hw2]
  simp

theorem split_return_args_eq_some {s : List Char} {i : Nat}
    (h : findSplitIdx s false 0 = some i) :
    split_return_args s =
      stripChars (s.take i) :: split_return_args (stripChars (s.drop (i + 1))) := by
  rw [split_return_args.eq_def]
  split
  · rename_i j hj
    rw [h] at hj
    cases hj
    rfl
  · rename_i hn
    rw [h] at hn
    cases hn

theorem split_return_args_eq_none {s : List Char}
    (h : findSplitIdx s false 0 = none) : split_return_args s = [s] := by
  rw [split_return_args.eq_def]
  split
  · rename_i j hj
    rw [h] at hj
    cases hj
  · rfl

/-- C9: `split_return_args` splits only at commas at parenthesis depth zero
outside double-quoted segments: the number of pieces is one more than the
number of such commas (so commas inside parentheses or quotes never
separate), and the example `f(a, b), "x,y"` yields exactly the two
expressions `f(a, b)` and `"x,y"`. -/
theorem claim_C9_split_return_args :
    split_return_args ("f(a, b), \"x,y\"".data) =
      ["f(a, b)".data, "\"x,y\"".data] ∧
    ∀ s : List Char,
      (split_return_args s).length = countSplitCommas s false 0 + 1 := by
  constructor
  · rw [split_return_args_eq_some (i := 7) (by decide)]
    rw [split_return_args_eq_none (by decide)]
    decide
  · intro s
    induction s using split_return_args.induct with
    | case1 s i h ih =>
      rw [split_return_args_eq_some h, countSplitCommas_of_some h]
      simp only [List.length_cons]
      rw [ih, countSplitCommas_stripChars]
      omega
    | case2 s h =>
      rw [split_return_args_eq_none h, countSplitCommas_of_none h]
      simp

/-! ## `Return` (nodes.py lines 1680-1718)

`Return.__init__` raises `ParseError` when `find_parent(Func)` is `None` or
when the number of parsed argument expressions differs from
`len(self.func.returns)`; `Return.process` raises `CompileError` when some
declared return type cannot hold the corresponding expression type.
`can_hold` lives in the out-of-scope `types.py`, so it is a parameter. -/

/-- Error type distinguishing the two fatal error kinds of the compiler. -/
inductive TealishError
  | parseError (msg : String)
  | compileError (msg : String)
deriving DecidableEq

/-- Build-time checks of `Return.__init__`: `enclosingFunc` is the result of
`find_parent(Func)` (`none` outside any func, otherwise the declared return
type list); `argTypes` are the types of the parsed `args_expressions`. -/
def returnBuildCheck {A : Type} (enclosingFunc : Option (List A))
    (argTypes : List A) : Except TealishError (List A) :=
  match enclosingFunc with
  | none => .error (.parseError "return should only be used in a function")
  | some returns =>
    if argTypes.length ≠ returns.length then
      .error (.parseError "Incorrect number of returns")
    else .ok returns

/-- The `Return.process` loop: for each declared return type `r` (in order),
check `r.can_hold(args_expressions[i].type)`.  (When the argument list is
shorter -- impossible after `returnBuildCheck` -- Python would fail on the
index; modelled as the same `CompileError` exit.) -/
def returnProcessCheck {A : Type} (canHold : A → A → Bool) :
    List A → List A → Except TealishError Unit
  | [], _ => .ok ()
  | r :: rs, e :: es =>
    if canHold r e then returnProcessCheck canHold rs es
    else .error (.compileError "Incorrect type for return value")
  | _ :: _, [] => .error (.compileError "Incorrect type for return value")

/-- The full acceptance check for a `return` statement: build then process. -/
def returnStatementCheck {A : Type} (canHold : A → A → Bool)
    (enclosingFunc : Option (List A)) (argTypes : List A) :
    Except TealishError Unit :=
  match returnBuildCheck enclosingFunc argTypes with
  | .error e => .error e
  | .ok returns => returnProcessCheck canHold returns argTypes

theorem returnProcessCheck_ok_iff {A : Type} (canHold : A → A → Bool)
    (rs es : List A) (hlen : es.length = rs.length) :
    returnProcessCheck canHold rs es = .ok () ↔
      List.Forall₂ (fun r e => canHold r e = true) rs es := by
  induction rs generalizing es with
  | nil =>
    cases es with
    | nil => simp [returnProcessCheck]
    | cons e es => simp at hlen
  | cons r rs ih =>
    cases es with
    | nil => simp at hlen
    | cons e es =>
      simp only [returnProcessCheck]
      by_cases hc : canHold r e
      · rw [if_pos hc]
        rw [ih es (by simpa using hlen)]
        simp [hc]
      · rw [if_neg hc]
        constructor
        · intro h; cases h
        · intro h
          cases h
          simp_all

/-- C3: `return e1,...,ek` is accepted iff it is lexically inside a `func`,
the enclosing func declares exactly k return types, and each declared
return type `can_hold` the type of the corresponding expression
(`List.Forall₂` forces both the arity match and the pointwise checks);
a missing enclosing func or an arity mismatch aborts at build time with a
`ParseError`, and a type mismatch aborts during `process` with a
`CompileError`. -/
theorem claim_C3_return_accepted_iff {A : Type} (canHold : A → A → Bool)
    (enclosingFunc : Option (List A)) (argTypes : List A) :
    (returnStatementCheck canHold enclosingFunc argTypes = .ok () ↔
      ∃ returns, enclosingFunc = some returns ∧
        List.Forall₂ (fun r e => canHold r e = true) returns argTypes) ∧
    ((enclosingFunc = none ∨
        ∃ rts, enclosingFunc = some rts ∧ rts.length ≠ argTypes.length) →
      ∃ m, returnStatementCheck canHold enclosingFunc argTypes =
        .error (.parseError m)) ∧
    (∀ rts, enclosingFunc = some rts → rts.length = argTypes.length →
      returnStatementCheck canHold enclosingFunc argTypes ≠ .ok () →
      ∃ m, returnStatementCheck canHold enclosingFunc argTypes =
        .error (.compileError m)) := by
  refine ⟨?_, ?_, ?_⟩
  · cases enclosingFunc with
    | none =>
      simp [returnStatementCheck, returnBuildCheck]
    | some rts =>
      simp only [returnStatementCheck, returnBuildCheck]
      by_cases hlen : argTypes.length ≠ rts.length
      · rw [if_pos hlen]
        constructor
        · intro h; cases h
        · rintro ⟨returns, hret, hall⟩
          cases hret
          exact absurd hall.length_eq (by omega)
      · rw [if_neg hlen]
        push_neg at hlen
        rw [returnProcessCheck_ok_iff canHold rts argTypes hlen]
        constructor
        · intro h; exact ⟨rts, rfl, h⟩
        · rintro ⟨returns, hret, hall⟩
          cases hret
          exact hall
  · rintro (hnone | ⟨rts, hrts, hlen⟩)
    · subst hnone
      exact ⟨_, rfl⟩
    · subst hrts
      simp only [returnStatementCheck, returnBuildCheck]
      rw [if_pos (by omega)]
      exact ⟨_, rfl⟩
  · intro rts hrts hlen hne
    subst hrts
    simp only [returnStatementCheck, returnBuildCheck] at hne ⊢
    rw [if_neg (by omega)] at hne ⊢
    induction rts generalizing argTypes with
    | nil => simp [returnProcessCheck] at hne
    | cons r rs ih =>
      cases argTypes with
      | nil => exact ⟨_, rfl⟩
      | cons e es =>
        simp only [returnProcessCheck] at hne ⊢
        by_cases hc : canHold r e
        · rw [if_pos hc] at hne ⊢
          exact ih es (by simpa using hlen) hne
        · rw [if_neg hc] at hne ⊢
          exact ⟨_, rfl⟩

/-- Witness for C3 at concrete inputs: a `return` outside any func is a
`ParseError`, and a well-typed `return` inside a func is accepted. -/
theorem claim_C3_return_accepted_iff_witness :
    (∃ m, returnStatementCheck (fun a b : Nat => a == b) none [2] =
      .error (.parseError m)) ∧
    returnStatementCheck (fun a b : Nat => a == b) (some [2]) [2] = .ok () :=
  ⟨(claim_C3_return_accepted_iff (fun a b : Nat => a == b) none [2]).2.1
      (Or.inl rfl),
   (claim_C3_return_accepted_iff (fun a b : Nat => a == b) (some [2]) [2]).1.mpr
      ⟨[2], rfl, by decide⟩⟩

/-! ## Cast / Rpad suggestions (nodes.py lines 567-579 and 1898-1928)

When `can_hold` fails, `VarDeclaration.process` and
`StructOrBoxAssignment.process` build the `CompileError` message by string
concatenation; if `can_hold_with_cast` succeeds they append a `Cast(..)`
suggestion line and, when the destination type is not an `IntType` or
`StructType`, an `Rpad(..)` suggestion line.  The message is modelled as
the list of appended pieces (the raised message is their concatenation). -/

/-- The pieces appended to `message` in `VarDeclaration.process` when the
declared type cannot hold the expression type (nodes.py lines 572-578). -/
def varDeclarationErrorParts (canHoldWithCast destIsInt destIsStruct : Bool)
    (typeName nameV exprT exprType lineText lineNo sizeStr : String) :
    List String :=
  ["Incorrect type for assignment. Expected " ++ (typeName ++ (", got " ++
      (exprType ++ (" at line " ++ (lineNo ++ ".")))))] ++
  (if canHoldWithCast then
    ["\nPerhaps Cast or padding is required? ",
     "\n- " ++ lineText,
     "\n+ " ++ (typeName ++ (" " ++ (nameV ++ (" = " ++
        ("Cast(" ++ (exprT ++ (", " ++ (typeName ++ ")"))))))))] ++
    (if destIsInt || destIsStruct then []
     else
      ["\n+ " ++ (typeName ++ (" " ++ (nameV ++ (" = " ++
          ("Rpad(" ++ (exprT ++ (", " ++ (sizeStr ++ ")"))))))))])
   else [])

/-- The type check of `VarDeclaration.process` for a declaration with an
initializer: `ok` when `can_hold` succeeds, otherwise `CompileError` with
the concatenated message. -/
def varDeclarationTypeCheck (canHold canHoldWithCast destIsInt destIsStruct : Bool)
    (typeName nameV exprT exprType lineText lineNo sizeStr : String) :
    Except String Unit :=
  if canHold then .ok ()
  else .error (String.join (varDeclarationErrorParts canHoldWithCast destIsInt
    destIsStruct typeName nameV exprT exprType lineText lineNo sizeStr))

/-- The pieces appended to `message` in `StructOrBoxAssignment.process` when
the field type cannot hold the expression type (nodes.py lines 1921-1927). -/
def structOrBoxAssignmentErrorParts (canHoldWithCast destIsInt destIsStruct : Bool)
    (dataType nameV fieldName exprT exprType lineText lineNo sizeStr : String) :
    List String :=
  ["Incorrect type for struct field assignment. Expected " ++ (dataType ++
      (", got " ++ (exprType ++ (" at line " ++ (lineNo ++ ".")))))] ++
  (if canHoldWithCast then
    ["\nPerhaps Cast or padding is required? ",
     "\n- " ++ lineText,
     "\n+ " ++ (nameV ++ ("." ++ (fieldName ++ (" = " ++
        ("Cast(" ++ (exprT ++ (", " ++ (dataType ++ ")"))))))))] ++
    (if destIsInt || destIsStruct then []
     else
      ["\n+ " ++ (nameV ++ ("." ++ (fieldName ++ (" = " ++
          ("Rpad(" ++ (exprT ++ (", " ++ (sizeStr ++ ")"))))))))])
   else [])

/-- The type check of `StructOrBoxAssignment.process` for the assigned
field: `ok` when `can_hold` succeeds, otherwise `CompileError` with the
concatenated message. -/
def structOrBoxAssignmentTypeCheck
    (canHold canHoldWithCast destIsInt destIsStruct : Bool)
    (dataType nameV fieldName exprT exprType lineText lineNo sizeStr : String) :
    Except String Unit :=
  if canHold then .ok ()
  else .error (String.join (structOrBoxAssignmentErrorParts canHoldWithCast
    destIsInt destIsStruct dataType nameV fieldName exprT exprType lineText
    lineNo sizeStr))

theorem string_ne_of_head_ne (s t : String) (x y : Char) (a b : List Char)
    (hs : s.data = x :: a) (ht : t.data = y :: b) (hxy : x ≠ y) : s ≠ t := by
  intro he; rw [he, ht] at hs; injection hs with h1 _; exact hxy h1.symm

theorem string_ne_of_head2_ne (s t : String) (x y z : Char) (a b : List Char)
    (hs : s.data = x :: y :: a) (ht : t.data = x :: z :: b) (hyz : y ≠ z) :
    s ≠ t := by
  intro he; rw [he, ht] at hs
  injection hs with _ h2
  injection h2 with h2 _
  exact hyz h2.symm

theorem string_append_cancel {p a b : String} (h : p ++ a = p ++ b) : a = b := by
  have hd := congrArg String.data h
  rw [String.data_append, String.data_append] at hd
  exact String.ext (List.append_cancel_left hd)
/-- C7: when `can_hold` fails but `can_hold_with_cast` succeeds, the
`CompileError` raised by `VarDeclaration.process` / `StructOrBoxAssignment.process`
is the concatenation of message pieces that always include the `Cast(..)`
suggestion line, and include the `Rpad(.., size)` suggestion line exactly
when the destination type is neither an int type nor a struct type. -/
theorem claim_C7_cast_rpad_suggestions (d1 d2 e1 e2 : Bool)
    (tn nm ex et lt ln sz dt nm2 fld ex2 et2 lt2 ln2 sz2 : String) :
    (varDeclarationTypeCheck false true d1 d2 tn nm ex et lt ln sz =
      .error (String.join
        (varDeclarationErrorParts true d1 d2 tn nm ex et lt ln sz))) ∧
    (("\n+ " ++ (tn ++ (" " ++ (nm ++ (" = " ++
        ("Cast(" ++ (ex ++ (", " ++ (tn ++ ")")))))))))
      ∈ varDeclarationErrorParts true d1 d2 tn nm ex et lt ln sz) ∧
    ((("\n+ " ++ (tn ++ (" " ++ (nm ++ (" = " ++
        ("Rpad(" ++ (ex ++ (", " ++ (sz ++ ")")))))))))
      ∈ varDeclarationErrorParts true d1 d2 tn nm ex et lt ln sz) ↔
      (d1 || d2) = false) ∧
    (structOrBoxAssignmentTypeCheck false true e1 e2 dt nm2 fld ex2 et2 lt2 ln2 sz2 =
      .error (String.join (structOrBoxAssignmentErrorParts true e1 e2 dt nm2
        fld ex2 et2 lt2 ln2 sz2))) ∧
    (("\n+ " ++ (nm2 ++ ("." ++ (fld ++ (" = " ++
        ("Cast(" ++ (ex2 ++ (", " ++ (dt ++ ")")))))))))
      ∈ structOrBoxAssignmentErrorParts true e1 e2 dt nm2 fld ex2 et2 lt2 ln2 sz2) ∧
    ((("\n+ " ++ (nm2 ++ ("." ++ (fld ++ (" = " ++
        ("Rpad(" ++ (ex2 ++ (", " ++ (sz2 ++ ")")))))))))
      ∈ structOrBoxAssignmentErrorParts true e1 e2 dt nm2 fld ex2 et2 lt2 ln2 sz2) ↔
      (e1 || e2) = false) := by
  refine ⟨rfl, by simp [varDeclarationErrorParts], ?_, rfl,
    by simp [structOrBoxAssignmentErrorParts], ?_⟩
  · cases hcond : d1 || d2
    · simp only [varDeclarationErrorParts, hcond, Bool.false_eq_true, if_false,
        List.cons_append, List.nil_append, List.mem_cons, List.mem_singleton]
      simp
    · apply iff_of_false
      · intro hmem
        simp only [varDeclarationErrorParts, hcond, if_true, List.append_nil,
          List.cons_append, List.nil_append, List.mem_cons, List.not_mem_nil,
          or_false] at hmem
        rcases hmem with h | h | h | h
        · exact string_ne_of_head_ne _ _ '\n' 'I' _ _ rfl rfl (by decide) h
        · exact string_ne_of_head2_ne _ _ '\n' '+' 'P' _ _ rfl rfl (by decide) h
        · exact string_ne_of_head2_ne _ _ '\n' '+' '-' _ _ rfl rfl (by decide) h
        · have h5 := string_append_cancel (string_append_cancel
            (string_append_cancel (string_append_cancel (string_append_cancel h))))
          exact string_ne_of_head_ne _ _ 'R' 'C' _ _ rfl rfl (by decide) h5
      · simp
  · cases hcond : e1 || e2
    · simp only [structOrBoxAssignmentErrorParts, hcond, Bool.false_eq_true,
        if_false, List.cons_append, List.nil_append, List.mem_cons,
        List.mem_singleton]
      simp
    · apply iff_of_false
      · intro hmem
        simp only [structOrBoxAssignmentErrorParts, hcond, if_true,
          List.append_nil, List.cons_append, List.nil_append, List.mem_cons,
          List.not_mem_nil, or_false] at hmem
        rcases hmem with h | h | h | h
        · exact string_ne_of_head_ne _ _ '\n' 'I' _ _ rfl rfl (by decide) h
        · exact string_ne_of_head2_ne _ _ '\n' '+' 'P' _ _ rfl rfl (by decide) h
        · exact string_ne_of_head2_ne _ _ '\n' '+' '-' _ _ rfl rfl (by decide) h
        · have h5 := string_append_cancel (string_append_cancel
            (string_append_cancel (string_append_cancel (string_append_cancel h))))
          exact string_ne_of_head_ne _ _ 'R' 'C' _ _ rfl rfl (by decide) h5
      · simp

/-! ## Build-pass structural rules (nodes.py `Program.consume` lines 273-307,
`Block.consume` lines 669-701)

The consume loops are modelled at the level of statement kinds: the loops
dispatch on `isinstance` checks only, so the kind of each sibling statement
determines acceptance.  `otherStmt` stands for any statement that is none of
the specifically checked classes (line statements such as declarations,
assignments, asserts, and inline statements such as `if`/`while`/`for`/
`teal:`/`inner_txn:`/`inner_group:`). -/

/-- Statement kinds distinguished by the build-pass structural checks. -/
inductive StmtKind
  | pragma
  | comment
  | blank
  | structDef
  | funcDef
  | decoratedFunc
  | blockStmt
  | exitStmt
  | switchStmt
  | jumpStmt
  | routerStmt
  | otherStmt
deriving DecidableEq, Fintype

/-- Predicate `is_exit_statement` (nodes.py line 2062): `Exit`, `Switch`, `Jump`, `Router`. -/
def is_exit_statement : StmtKind → Bool
  | .exitStmt | .switchStmt | .jumpStmt | .routerStmt => true
  | _ => false

/-- Statements that keep `expect_struct_definition` true in `Program.consume`
(`TealVersion`, `Blank`, `Comment`, `StructDefinition`). -/
def structExempt : StmtKind → Bool
  | .pragma | .blank | .comment | .structDef => true
  | _ => false

/-- Statements allowed after an exit statement in `Program.consume`
(`Func`, `DecoratedFunc`, `Block`, `Comment`, `Blank`). -/
def allowedAfterExitProgram : StmtKind → Bool
  | .funcDef | .decoratedFunc | .blockStmt | .comment | .blank => true
  | _ => false

/-- Statements rejected before an exit statement in `Program.consume`
(`Func`, `DecoratedFunc`, `Block`). -/
def badBeforeExitProgram : StmtKind → Bool
  | .funcDef | .decoratedFunc | .blockStmt => true
  | _ => false

/-- Statements allowed after an exit statement in `Block.consume`
(`Func`, `Block`, `Comment`, `Blank` -- note: no `DecoratedFunc`). -/
def allowedAfterExitBlock : StmtKind → Bool
  | .funcDef | .blockStmt | .comment | .blank => true
  | _ => false

/-- Statements rejected before an exit statement in `Block.consume`
(`Func`, `Block` -- note: no `DecoratedFunc`). -/
def badBeforeExitBlock : StmtKind → Bool
  | .funcDef | .blockStmt => true
  | _ => false

/-- The `Program.consume` loop over the top-level statement kinds, carrying
`expect_struct_definition` and whether an exit statement has been seen.
The `#pragma`-on-line-1 rule is out of scope of this model (a `pragma` kind
is treated as the accepted line-1 occurrence). -/
def programConsume : List StmtKind → Bool → Bool → Except TealishError Unit
  | [], _, _ => .ok ()
  | k :: rest, expectStruct, exitSeen =>
    if expectStruct = false ∧ k = .structDef then
      .error (.parseError "Unexpected Struct definition")
    else if exitSeen then
      if allowedAfterExitProgram k = false then
        .error (.parseError "Unexpected statement after exit statement")
      else
        programConsume rest (expectStruct && structExempt k)
          (exitSeen || is_exit_statement k)
    else
      if badBeforeExitProgram k then
        .error (.parseError "Definition before exit statement")
      else
        programConsume rest (expectStruct && structExempt k)
          (exitSeen || is_exit_statement k)

/-- The `Block.consume` loop over the block-body statement kinds before the
closing `end`.  A `StructDefinition` inside a block raises in
`StructDefinition.consume` (parent is not `Program`), and a `#pragma` line
inside a block raises in `LineStatement.consume` (line number is not 1), so
those kinds error during `Statement.consume` itself; reaching `end` without
an exit statement raises. -/
def blockConsume : List StmtKind → Bool → Except TealishError Unit
  | [], exitSeen =>
    if exitSeen then .ok ()
    else .error (.parseError "Unexpected end of block without exit statement")
  | k :: rest, exitSeen =>
    if k = .structDef then
      .error (.parseError "Unexpected StructDefinition inside block")
    else if k = .pragma then
      .error (.parseError "Teal version must be specified in the first line")
    else if exitSeen then
      if allowedAfterExitBlock k = false then
        .error (.parseError "Unexpected statement after exit statement")
      else blockConsume rest (exitSeen || is_exit_statement k)
    else
      if badBeforeExitBlock k then
        .error (.parseError "Definition before exit statement")
      else blockConsume rest (exitSeen || is_exit_statement k)

/-- Spec-side predicate: struct definitions appear only while every earlier
statement is pragma/blank/comment/struct (state `es` is the incoming
`expect_struct_definition`). -/
def structPlacementOk (es : Bool) (ks : List StmtKind) : Prop :=
  ∀ a b, ks = a ++ StmtKind.structDef :: b →
    es = true ∧ ∀ x ∈ a, structExempt x = true

/-- Spec-side predicate describing the exit-statement placement discipline:
either there is no exit statement and every statement is a non-exit
statement satisfying `before` (allowed only when `requireExit = false`), or
the statements split as `pre ++ e :: post` with `pre` all non-exit
satisfying `before`, `e` an exit statement, and `post` all satisfying
`after`. -/
def consumeRunAccepts (before after : StmtKind → Bool) (requireExit : Bool)
    (ks : List StmtKind) : Prop :=
  (requireExit = false ∧ ∀ k ∈ ks, is_exit_statement k = false ∧ before k = true) ∨
  (∃ pre e post, ks = pre ++ e :: post ∧
    (∀ k ∈ pre, is_exit_statement k = false ∧ before k = true) ∧
    is_exit_statement e = true ∧ ∀ k ∈ post, after k = true)

/-- Statements accepted before the exit statement inside a block: not a
func, block, struct definition, or pragma. -/
def okBeforeExitBlock : StmtKind → Bool
  | .funcDef | .blockStmt | .structDef | .pragma => false
  | _ => true

/-- Statements accepted before the exit statement at top level (struct
placement is tracked separately by `structPlacementOk`). -/
def okBeforeExitProgram : StmtKind → Bool
  | .funcDef | .decoratedFunc | .blockStmt => false
  | _ => true

theorem consumeRunAccepts_cons_exit {b a : StmtKind → Bool} {req : Bool}
    {k : StmtKind} {ks : List StmtKind} (hk : is_exit_statement k = true) :
    consumeRunAccepts b a req (k :: ks) ↔ ∀ x ∈ ks, a x = true := by
  constructor
  · rintro (⟨hreq, hall⟩ | ⟨pre, e, post, hdec, hpre, hex, hpost⟩)
    · exact absurd (hall k (List.mem_cons_self _ _)).1 (by simp [hk])
    · cases pre with
      | nil =>
        simp only [List.nil_append, List.cons.injEq] at hdec
        rw [hdec.2]
        exact hpost
      | cons p pre =>
        simp only [List.cons_append, List.cons.injEq] at hdec
        have := (hpre p (by simp)).1
        rw [← hdec.1] at this
        rw [this] at hk
        cases hk
  · intro hpost
    exact Or.inr ⟨[], k, ks, rfl, by simp, hk, hpost⟩

theorem consumeRunAccepts_cons_ok {b a : StmtKind → Bool} {req : Bool}
    {k : StmtKind} {ks : List StmtKind} (hk : is_exit_statement k = false)
    (hb : b k = true) :
    consumeRunAccepts b a req (k :: ks) ↔ consumeRunAccepts b a req ks := by
  constructor
  · rintro (⟨hreq, hall⟩ | ⟨pre, e, post, hdec, hpre, hex, hpost⟩)
    · exact Or.inl ⟨hreq, fun x hx => hall x (List.mem_cons_of_mem _ hx)⟩
    · cases pre with
      | nil =>
        simp only [List.nil_append, List.cons.injEq] at hdec
        rw [← hdec.1] at hex
        rw [hex] at hk
        cases hk
      | cons p pre =>
        simp only [List.cons_append, List.cons.injEq] at hdec
        exact Or.inr ⟨pre, e, post, hdec.2,
          fun x hx => hpre x (List.mem_cons_of_mem _ hx), hex, hpost⟩
  · rintro (⟨hreq, hall⟩ | ⟨pre, e, post, hdec, hpre, hex, hpost⟩)
    · refine Or.inl ⟨hreq, ?_⟩
      intro x hx
      rcases List.mem_cons.mp hx with rfl | hx
      · exact ⟨hk, hb⟩
      · exact hall x hx
    · refine Or.inr ⟨k :: pre, e, post, by rw [hdec]; rfl, ?_, hex, hpost⟩
      intro x hx
      rcases List.mem_cons.mp hx with rfl | hx
      · exact ⟨hk, hb⟩
      · exact hpre x hx

theorem consumeRunAccepts_cons_bad {b a : StmtKind → Bool} {req : Bool}
    {k : StmtKind} {ks : List StmtKind} (hk : is_exit_statement k = false)
    (hb : b k = false) :
    ¬consumeRunAccepts b a req (k :: ks) := by
  rintro (⟨hreq, hall⟩ | ⟨pre, e, post, hdec, hpre, hex, hpost⟩)
  · have := (hall k (List.mem_cons_self _ _)).2
    rw [this] at hb
    cases hb
  · cases pre with
    | nil =>
      simp only [List.nil_append, List.cons.injEq] at hdec
      rw [← hdec.1] at hex
      rw [hex] at hk
      cases hk
    | cons p pre =>
      simp only [List.cons_append, List.cons.injEq] at hdec
      have := (hpre p (by simp)).2
      rw [← hdec.1] at this
      rw [this] at hb
      cases hb
theorem structPlacementOk_nil (es : Bool) : structPlacementOk es [] := by
  intro a b hab
  exact absurd hab (by simp)

theorem structPlacementOk_cons_ne {es : Bool} {k : StmtKind} {ks : List StmtKind}
    (hk : k ≠ .structDef) :
    structPlacementOk es (k :: ks) ↔ structPlacementOk (es && structExempt k) ks := by
  constructor
  · intro H a b hab
    have := H (k :: a) b (by rw [hab]; rfl)
    refine ⟨?_, fun x hx => this.2 x (List.mem_cons_of_mem _ hx)⟩
    rw [this.1, this.2 k (List.mem_cons_self _ _)]
    rfl
  · intro H a b hab
    cases a with
    | nil =>
      simp only [List.nil_append, List.cons.injEq] at hab
      exact absurd hab.1 hk
    | cons a0 arest =>
      simp only [List.cons_append, List.cons.injEq] at hab
      obtain ⟨rfl, hab2⟩ := hab
      obtain ⟨hes, hall⟩ := H arest b hab2
      rw [Bool.and_eq_true] at hes
      refine ⟨hes.1, ?_⟩
      intro x hx
      rcases List.mem_cons.mp hx with rfl | hx
      · exact hes.2
      · exact hall x hx

theorem structPlacementOk_cons_structDef {es : Bool} {ks : List StmtKind} :
    structPlacementOk es (.structDef :: ks) ↔ es = true ∧ structPlacementOk es ks := by
  constructor
  · intro H
    refine ⟨(H [] ks rfl).1, ?_⟩
    intro a b hab
    have := H (.structDef :: a) b (by rw [hab]; rfl)
    exact ⟨this.1, fun x hx => this.2 x (List.mem_cons_of_mem _ hx)⟩
  · rintro ⟨hes, H⟩ a b hab
    cases a with
    | nil => exact ⟨hes, by simp⟩
    | cons a0 arest =>
      simp only [List.cons_append, List.cons.injEq] at hab
      obtain ⟨rfl, hab2⟩ := hab
      obtain ⟨_, hall⟩ := H arest b hab2
      refine ⟨hes, ?_⟩
      intro x hx
      rcases List.mem_cons.mp hx with rfl | hx
      · rfl
      · exact hall x hx

theorem structPlacementOk_of_no_structDef {es : Bool} {ks : List StmtKind}
    (h : ∀ k ∈ ks, k ≠ StmtKind.structDef) : structPlacementOk es ks := by
  intro a b hab
  exact absurd rfl (h .structDef (by rw [hab]; simp))

/-- After an exit statement, `Program.consume` accepts exactly the statement
kinds in `allowedAfterExitProgram`, regardless of `expect_struct_definition`. -/
theorem programConsume_after_exit (ks : List StmtKind) (es : Bool) :
    programConsume ks es true = .ok () ↔ ∀ k ∈ ks, allowedAfterExitProgram k = true := by
  induction ks generalizing es with
  | nil => simp [programConsume]
  | cons k rest ih =>
    simp only [programConsume]
    by_cases hsd : es = false ∧ k = .structDef
    · rw [if_pos hsd]
      obtain ⟨_, rfl⟩ := hsd
      constructor
      · intro h; cases h
      · intro h
        have := h .structDef (List.mem_cons_self _ _)
        cases this
    · rw [if_neg hsd, if_pos trivial]
      by_cases hall : allowedAfterExitProgram k = false
      · rw [if_pos hall]
        constructor
        · intro h; cases h
        · intro h
          rw [h k (List.mem_cons_self _ _)] at hall
          cases hall
      · rw [if_neg hall]
        replace hall : allowedAfterExitProgram k = true := by simpa using hall
        have hexit : (true || is_exit_statement k) = true := by simp
        rw [hexit, ih]
        constructor
        · intro h
          intro x hx
          rcases List.mem_cons.mp hx with rfl | hx
          · exact hall
          · exact h x hx
        · intro h x hx
          exact h x (List.mem_cons_of_mem _ hx)

/-- After an exit statement, `Block.consume` accepts exactly the statement
kinds in `allowedAfterExitBlock`. -/
theorem blockConsume_after_exit (ks : List StmtKind) :
    blockConsume ks true = .ok () ↔ ∀ k ∈ ks, allowedAfterExitBlock k = true := by
  induction ks with
  | nil => simp [blockConsume]
  | cons k rest ih =>
    simp only [blockConsume]
    by_cases hsd : k = .structDef
    · rw [if_pos hsd]
      subst hsd
      constructor
      · intro h; cases h
      · intro h
        have := h .structDef (List.mem_cons_self _ _)
        cases this
    · rw [if_neg hsd]
      by_cases hpr : k = .pragma
      · rw [if_pos hpr]
        subst hpr
        constructor
        · intro h; cases h
        · intro h
          have := h .pragma (List.mem_cons_self _ _)
          cases this
      · rw [if_neg hpr, if_pos trivial]
        by_cases hall : allowedAfterExitBlock k = false
        · rw [if_pos hall]
          constructor
          · intro h; cases h
          · intro h
            rw [h k (List.mem_cons_self _ _)] at hall
            cases hall
        · rw [if_neg hall]
          replace hall : allowedAfterExitBlock k = true := by simpa using hall
          have hexit : (true || is_exit_statement k) = true := by simp
          rw [hexit, ih]
          constructor
          · intro h x hx
            rcases List.mem_cons.mp hx with rfl | hx
            · exact hall
            · exact h x hx
          · intro h x hx
            exact h x (List.mem_cons_of_mem _ hx)
theorem bad_block_not_exit :
    ∀ k, badBeforeExitBlock k = true → is_exit_statement k = false := by decide

theorem bad_block_not_ok :
    ∀ k, badBeforeExitBlock k = true → okBeforeExitBlock k = false := by decide

theorem not_bad_block_ok :
    ∀ k, k ≠ StmtKind.structDef → k ≠ StmtKind.pragma →
      badBeforeExitBlock k = false → okBeforeExitBlock k = true := by decide

theorem bad_program_not_exit :
    ∀ k, badBeforeExitProgram k = true → is_exit_statement k = false := by decide

theorem bad_program_not_ok :
    ∀ k, badBeforeExitProgram k = true → okBeforeExitProgram k = false := by decide

theorem not_bad_program_ok :
    ∀ k, badBeforeExitProgram k = false → okBeforeExitProgram k = true := by decide

theorem allowed_program_ne_structDef :
    ∀ k, allowedAfterExitProgram k = true → k ≠ StmtKind.structDef := by decide

/-- Acceptance characterization of `Block.consume` from its initial state. -/
theorem blockConsume_ok_iff (ks : List StmtKind) :
    blockConsume ks false = .ok () ↔
      consumeRunAccepts okBeforeExitBlock allowedAfterExitBlock true ks := by
  induction ks with
  | nil =>
    apply iff_of_false
    · simp [blockConsume]
    · rintro (⟨hreq, _⟩ | ⟨pre, e, post, hdec, _⟩)
      · cases hreq
      · exact absurd hdec (by simp)
  | cons k rest ih =>
    simp only [blockConsume]
    by_cases hsd : k = .structDef
    · rw [if_pos hsd]
      subst hsd
      exact iff_of_false (by simp) (consumeRunAccepts_cons_bad rfl rfl)
    · rw [if_neg hsd]
      by_cases hpr : k = .pragma
      · rw [if_pos hpr]
        subst hpr
        exact iff_of_false (by simp) (consumeRunAccepts_cons_bad rfl rfl)
      · rw [if_neg hpr, if_neg (by simp)]
        by_cases hbad : badBeforeExitBlock k = true
        · rw [if_pos hbad]
          exact iff_of_false (by simp)
            (consumeRunAccepts_cons_bad (bad_block_not_exit k hbad)
              (bad_block_not_ok k hbad))
        · rw [if_neg hbad]
          replace hbad : badBeforeExitBlock k = false := by simpa using hbad
          by_cases hex : is_exit_statement k = true
          · simp only [hex, Bool.false_or]
            rw [blockConsume_after_exit, consumeRunAccepts_cons_exit hex]
          · replace hex : is_exit_statement k = false := by simpa using hex
            simp only [hex, Bool.false_or]
            rw [ih, consumeRunAccepts_cons_ok hex (not_bad_block_ok k hsd hpr hbad)]

/-- Acceptance characterization of `Program.consume` from expect-struct
state `es` (the initial state is `es = true`). -/
theorem programConsume_ok_iff (ks : List StmtKind) (es : Bool) :
    programConsume ks es false = .ok () ↔
      structPlacementOk es ks ∧
      consumeRunAccepts okBeforeExitProgram allowedAfterExitProgram false ks := by
  induction ks generalizing es with
  | nil =>
    apply iff_of_true rfl
    exact ⟨structPlacementOk_nil es, Or.inl ⟨rfl, by simp⟩⟩
  | cons k rest ih =>
    simp only [programConsume]
    by_cases hsd : k = .structDef
    · subst hsd
      by_cases hes : es = false
      · rw [if_pos ⟨hes, rfl⟩]
        apply iff_of_false (by simp)
        rintro ⟨hS, _⟩
        rw [structPlacementOk_cons_structDef] at hS
        rw [hes] at hS
        cases hS.1
      · replace hes : es = true := by revert hes; cases es <;> simp
        rw [if_neg (by simp [hes])]
        rw [if_neg (by simp)]
        rw [if_neg (by decide : ¬badBeforeExitProgram .structDef = true)]
        have h1 : structExempt .structDef = true := rfl
        have h2 : is_exit_statement .structDef = false := rfl
        simp only [h1, h2, Bool.and_true, Bool.or_false]
        rw [ih es, structPlacementOk_cons_structDef,
          consumeRunAccepts_cons_ok (by decide) (by decide)]
        rw [hes]
        simp
    · rw [if_neg (by simp [hsd])]
      rw [if_neg (by simp)]
      by_cases hbad : badBeforeExitProgram k = true
      · rw [if_pos hbad]
        apply iff_of_false (by simp)
        rintro ⟨_, hAcc⟩
        exact consumeRunAccepts_cons_bad (bad_program_not_exit k hbad)
          (bad_program_not_ok k hbad) hAcc
      · rw [if_neg hbad]
        replace hbad : badBeforeExitProgram k = false := by simpa using hbad
        by_cases hex : is_exit_statement k = true
        · simp only [hex, Bool.false_or]
          rw [programConsume_after_exit, consumeRunAccepts_cons_exit hex]
          constructor
          · intro hall
            refine ⟨structPlacementOk_of_no_structDef ?_, hall⟩
            intro x hx
            rcases List.mem_cons.mp hx with rfl | hx
            · exact hsd
            · exact allowed_program_ne_structDef x (hall x hx)
          · rintro ⟨_, hall⟩
            exact hall
        · replace hex : is_exit_statement k = false := by simpa using hex
          simp only [hex, Bool.false_or]
          rw [ih (es && structExempt k), structPlacementOk_cons_ne hsd,
            consumeRunAccepts_cons_ok hex (not_bad_program_ok k hbad)]
/-- C2 counterexample: inside a block the build pass does NOT treat a
decorated func like a plain func (contrary to the claim): a decorated func
before the first exit statement of a block is accepted (the claim requires
a ParseError), and a decorated func after the exit statement of a block
raises a ParseError (the claim lists decorated funcs among the allowed
followers). -/
theorem claim_C2_counterexample :
    blockConsume [.decoratedFunc, .exitStmt] false = .ok () ∧
    blockConsume [.exitStmt, .decoratedFunc] false =
      .error (.parseError "Unexpected statement after exit statement") := by
  constructor <;> rfl

/-- C2 (amended): during the build pass, `Program.consume` accepts a
top-level statement sequence iff struct definitions are placed correctly and
the sequence satisfies the exit discipline with `funcDef/decoratedFunc/
blockStmt` rejected before the first exit statement and only
`funcDef/decoratedFunc/blockStmt/comment/blank` allowed after it (no exit
statement is required at top level); `Block.consume` accepts a block body
iff it splits around an exit statement (reaching `end` without one is an
error), where before the exit only non-`func`/non-`block` statements (a
decorated func is NOT rejected here) are accepted and after the exit only
`funcDef/blockStmt/comment/blank` (a decorated func is NOT allowed here). -/
theorem claim_C2_build_pass_rules :
    (∀ ks : List StmtKind, programConsume ks true false = .ok () ↔
       structPlacementOk true ks ∧
       consumeRunAccepts okBeforeExitProgram allowedAfterExitProgram false ks) ∧
    (∀ ks : List StmtKind, blockConsume ks false = .ok () ↔
       consumeRunAccepts okBeforeExitBlock allowedAfterExitBlock true ks) :=
  ⟨fun ks => programConsume_ok_iff ks true, blockConsume_ok_iff⟩

/-! ## Router return-value encoding (nodes.py `Router.write_teal` lines 873-923)

For each route, after `callsub {func.label}` the router reverses the return
values on the stack (`uncover i` for each after the first), converts int
returns with `itob`, concatenates with n-1 `concat`s, prefixes the ARC-4
return tag `0x151f7c75` and logs, then emits `pushint 1; return`. -/

/-- One declared return type of a routed function: the type name `r.name`
and whether `isinstance(r, IntType)` holds. -/
structure RetType where
  name : String
  isInt : Bool
deriving DecidableEq

/-- The lines written by the `for i, r in enumerate(func.returns)` loop of
`Router.write_teal` (uncover/comment then optional `itob`), starting at
index `n` (the loop starts at 0). -/
def routerReturnLines : Nat → List RetType → List String
  | _, [] => []
  | i, r :: rest =>
    (if 0 < i then ["uncover " ++ (toString i ++ (" // " ++ r.name))]
     else ["// uncover " ++ (toString i ++ (" " ++ r.name))]) ++
    (if r.isInt then ["itob"] else []) ++
    routerReturnLines (i + 1) rest

/-- The lines `Router.write_teal` writes for one route from the `callsub`
on: call, then (when the function has returns) the return-reversal loop,
n-1 `concat`s and the tagged `log`, then always `pushint 1; return`. -/
def routeCallLines (funcLabel : String) (returns : List RetType) : List String :=
  ["callsub " ++ funcLabel] ++
  (if returns.isEmpty then [] else
    ["// return " ++ String.intercalate ", " (returns.map RetType.name)] ++
    routerReturnLines 0 returns ++
    List.replicate (returns.length - 1) "concat" ++
    ["pushbytes 0x151f7c75; swap; concat; log // arc4 return log"]) ++
  ["pushint 1; return"]

theorem routerReturnLines_count_itob (n : Nat) (rs : List RetType) :
    (routerReturnLines n rs).count "itob" =
      (rs.filter (fun r => r.isInt)).length := by
  induction rs generalizing n with
  | nil => simp [routerReturnLines]
  | cons r rest ih =>
    simp only [routerReturnLines, List.count_append]
    have h1 : ∀ m : Nat,
        (if 0 < m then ["uncover " ++ (toString m ++ (" // " ++ r.name))]
         else ["// uncover " ++ (toString m ++ (" " ++ r.name))]).count "itob" = 0 := by
      intro m
      by_cases hm : 0 < m
      · rw [if_pos hm]
        simp only [List.count_singleton]
        rw [if_neg]
        intro he
        have heq := eq_of_beq he
        exact absurd heq (string_ne_of_head_ne _ _ 'u' 'i' _ _ rfl rfl (by decide))
      · rw [if_neg hm]
        simp only [List.count_singleton]
        rw [if_neg]
        intro he
        have heq := eq_of_beq he
        exact absurd heq (string_ne_of_head_ne _ _ '/' 'i' _ _ rfl rfl (by decide))
    rw [h1 n, ih (n + 1)]
    by_cases hr : r.isInt
    · rw [if_pos hr]
      simp [List.filter, hr]
      omega
    · rw [if_neg hr]
      have : r.isInt = false := by simpa using hr
      simp [List.filter, this]

theorem routerReturnLines_count_concat (n : Nat) (rs : List RetType) :
    (routerReturnLines n rs).count "concat" = 0 := by
  induction rs generalizing n with
  | nil => simp [routerReturnLines]
  | cons r rest ih =>
    simp only [routerReturnLines, List.count_append]
    have h1 : ∀ m : Nat,
        (if 0 < m then ["uncover " ++ (toString m ++ (" // " ++ r.name))]
         else ["// uncover " ++ (toString m ++ (" " ++ r.name))]).count "concat" = 0 := by
      intro m
      by_cases hm : 0 < m
      · rw [if_pos hm]
        simp only [List.count_singleton]
        rw [if_neg]
        intro he
        have heq := eq_of_beq he
        exact absurd heq (string_ne_of_head_ne _ _ 'u' 'c' _ _ rfl rfl (by decide))
      · rw [if_neg hm]
        simp only [List.count_singleton]
        rw [if_neg]
        intro he
        have heq := eq_of_beq he
        exact absurd heq (string_ne_of_head_ne _ _ '/' 'c' _ _ rfl rfl (by decide))
    have h2 : (if r.isInt then ["itob"] else []).count "concat" = 0 := by
      by_cases hr : r.isInt
      · rw [if_pos hr]; decide
      · rw [if_neg hr]; decide
    rw [h1 n, h2, ih (n + 1)]

theorem routerReturnLines_mem_uncover (n : Nat) (rs : List RetType)
    (j : Fin rs.length) (h : 0 < n + j.val) :
    ("uncover " ++ (toString (n + j.val) ++ (" // " ++ (rs.get j).name))) ∈
      routerReturnLines n rs := by
  induction rs generalizing n with
  | nil => exact absurd j.isLt (by simp)
  | cons r rest ih =>
    rcases j with ⟨jv, hj⟩
    cases jv with
    | zero =>
      simp only [Nat.add_zero] at h ⊢
      simp only [routerReturnLines, List.mem_append]
      left; left
      rw [if_pos h]
      simp [List.get]
    | succ j2 =>
      simp only [routerReturnLines, List.mem_append]
      right
      have hj2 : j2 < rest.length := by simpa using hj
      have := ih (n + 1) ⟨j2, hj2⟩ (by omega)
      have harith : n + 1 + j2 = n + (j2 + 1) := by omega
      rw [harith] at this
      exact this
/-- C5: for a routed public function with one or more return values, the
emission after `callsub` contains `uncover i` for each return value after
the first, one `itob` per int-typed return, exactly n-1 `concat`s, and ends
with the `0x151f7c75`-tagged `log` followed by `pushint 1; return`. -/
theorem claim_C5_router_return_encoding (lbl : String) (rs : List RetType)
    (hne : rs ≠ []) :
    (routeCallLines lbl rs).head? = some ("callsub " ++ lbl) ∧
    (∀ j : Fin rs.length, 0 < j.val →
      ("uncover " ++ (toString j.val ++ (" // " ++ (rs.get j).name))) ∈
        routeCallLines lbl rs) ∧
    (routeCallLines lbl rs).count "itob" =
      (rs.filter (fun r => r.isInt)).length ∧
    (routeCallLines lbl rs).count "concat" = rs.length - 1 ∧
    ∃ pre, routeCallLines lbl rs =
      pre ++ ["pushbytes 0x151f7c75; swap; concat; log // arc4 return log",
              "pushint 1; return"] := by
  have hcond : ¬(rs.isEmpty = true) := by
    cases rs with
    | nil => exact absurd rfl hne
    | cons a l => simp [List.isEmpty]
  have hc1 : List.count "itob" ["callsub " ++ lbl] = 0 := by
    simp only [List.count_singleton]
    rw [if_neg]
    intro he
    exact absurd (eq_of_beq he)
      (string_ne_of_head_ne _ _ 'c' 'i' _ _ rfl rfl (by decide))
  have hc2 : List.count "itob"
      ["// return " ++ String.intercalate ", " (rs.map RetType.name)] = 0 := by
    simp only [List.count_singleton]
    rw [if_neg]
    intro he
    exact absurd (eq_of_beq he)
      (string_ne_of_head_ne _ _ '/' 'i' _ _ rfl rfl (by decide))
  have hc3 : List.count "itob"
      ["pushbytes 0x151f7c75; swap; concat; log // arc4 return log"] = 0 := by
    decide
  have hc4 : List.count "itob" ["pushint 1; return"] = 0 := by decide
  have hc5 : List.count "itob" (List.replicate (rs.length - 1) "concat") = 0 := by
    rw [List.count_replicate]
    rw [if_neg]
    decide
  have hd1 : List.count "concat" ["callsub " ++ lbl] = 0 := by
    simp only [List.count_singleton]
    rw [if_neg]
    intro he
    exact absurd (eq_of_beq he)
      (string_ne_of_head2_ne _ _ 'c' 'a' 'o' _ _ rfl rfl (by decide))
  have hd2 : List.count "concat"
      ["// return " ++ String.intercalate ", " (rs.map RetType.name)] = 0 := by
    simp only [List.count_singleton]
    rw [if_neg]
    intro he
    exact absurd (eq_of_beq he)
      (string_ne_of_head_ne _ _ '/' 'c' _ _ rfl rfl (by decide))
  have hd3 : List.count "concat"
      ["pushbytes 0x151f7c75; swap; concat; log // arc4 return log"] = 0 := by
    decide
  have hd4 : List.count "concat" ["pushint 1; return"] = 0 := by decide
  have hd5 : List.count "concat" (List.replicate (rs.length - 1) "concat") =
      rs.length - 1 := List.count_replicate_self _ _
  refine ⟨?_, ?_, ?_, ?_, ?_⟩
  · simp only [routeCallLines, if_neg hcond]
    rfl
  · intro j hj
    have hm := routerReturnLines_mem_uncover 0 rs j (by omega)
    rw [Nat.zero_add] at hm
    simp only [routeCallLines, if_neg hcond, List.append_assoc, List.cons_append,
      List.nil_append, List.mem_cons, List.mem_append]
    tauto
  · simp only [routeCallLines, if_neg hcond, List.append_assoc, List.count_append]
    rw [hc1, hc2, hc3, hc4, hc5, routerReturnLines_count_itob]
    omega
  · simp only [routeCallLines, if_neg hcond, List.append_assoc, List.count_append]
    rw [hd1, hd2, hd3, hd4, hd5, routerReturnLines_count_concat]
    omega
  · refine ⟨["callsub " ++ lbl] ++
      (["// return " ++ String.intercalate ", " (rs.map RetType.name)] ++
        routerReturnLines 0 rs ++ List.replicate (rs.length - 1) "concat"), ?_⟩
    simp only [routeCallLines, if_neg hcond, List.append_assoc, List.cons_append,
      List.nil_append]

/-- Witness for C5 at a function with an int return and a bytes return. -/
theorem claim_C5_router_return_encoding_witness :
    (routeCallLines "main__func__getter"
      [⟨"int", true⟩, ⟨"bytes", false⟩]).count "concat" = 1 ∧
    (routeCallLines "main__func__getter"
      [⟨"int", true⟩, ⟨"bytes", false⟩]).count "itob" = 1 ∧
    ("uncover " ++ (toString 1 ++ (" // " ++ "bytes"))) ∈
      routeCallLines "main__func__getter" [⟨"int", true⟩, ⟨"bytes", false⟩] :=
  ⟨(claim_C5_router_return_encoding "main__func__getter"
      [⟨"int", true⟩, ⟨"bytes", false⟩] (by simp)).2.2.2.1,
   (claim_C5_router_return_encoding "main__func__getter"
      [⟨"int", true⟩, ⟨"bytes", false⟩] (by simp)).2.2.1,
   (claim_C5_router_return_encoding "main__func__getter"
      [⟨"int", true⟩, ⟨"bytes", false⟩] (by simp)).2.1 ⟨1, by decide⟩ (by decide)⟩

/-! ## Inner-transaction field setters (nodes.py lines 963-977 and 1015-1043)

`InnerTxnFieldSetter.pattern` is
`(?P<field_name>.*?)(\[(?P<index>\d\d?)\])?: (?P<expression>.*)`: a lazy
field name, an optional bracketed index of one or two digits, then `: ` and
the expression.  The matcher below implements this regex faithfully: match
positions are tried shortest-field-name first (lazy `.*?`), and at each
position the optional group is tried greedily (two digits, one digit, then
absent). -/

/-- Match `\[\d\d\]` at the head: the two-digit bracketed index. -/
def bracketTwo : List Char → Option (List Char × List Char)
  | a :: d1 :: d2 :: b :: r =>
    if a = '[' ∧ d1.isDigit ∧ d2.isDigit ∧ b = ']' then some ([d1, d2], r)
    else none
  | _ => none

/-- Match `\[\d\]` at the head: the one-digit bracketed index. -/
def bracketOne : List Char → Option (List Char × List Char)
  | a :: d1 :: b :: r =>
    if a = '[' ∧ d1.isDigit ∧ b = ']' then some ([d1], r) else none
  | _ => none

/-- Match the literal `: ` at the head. -/
def colonSpace : List Char → Option (List Char)
  | a :: b :: r => if a = ':' ∧ b = ' ' then some r else none
  | _ => none

/-- Match `(\[(\d\d?)\])?: ` at one position, in regex backtracking order:
two-digit bracket, one-digit bracket, then no bracket. -/
def setterHere (s : List Char) : Option (Option (List Char) × List Char) :=
  ((bracketTwo s).bind fun p => (colonSpace p.2).map fun e => (some p.1, e)) <|>
  ((bracketOne s).bind fun p => (colonSpace p.2).map fun e => (some p.1, e)) <|>
  ((colonSpace s).map fun e => (none, e))

/-- The lazy scan of `re.match` for the setter pattern: try the tail match
at each position left to right, absorbing skipped characters into the field
name. -/
def setterScan : List Char → List Char → Option (List Char × Option (List Char) × List Char)
  | acc, s =>
    match setterHere s with
    | some (idx, e) => some (acc.reverse, idx, e)
    | none =>
      match s with
      | [] => none
      | c :: r => setterScan (c :: acc) r

/-- The result of `re.match(InnerTxnFieldSetter.pattern, line)`, returning
`(field_name, index, expression)`. -/
def innerTxnFieldSetterMatch (line : List Char) :
    Option (List Char × Option (List Char) × List Char) :=
  setterScan [] line

/-- Emission of `InnerTxnFieldSetter.write_teal`: the tl comment, the expression lines,
then `itxn_field {field_name}` verbatim. -/
def innerTxnFieldSetterWriteTeal (tl : String) (exprLines : List String)
    (fieldName : String) : List String :=
  [tl] ++ exprLines ++ ["itxn_field " ++ fieldName]

/-- The `InnerTxn.process` loop over field setters (nodes.py lines
1015-1043): a setter with an index must equal the number of setters already
seen for that field (consecutive indices starting at 0, tracked by
`counts`); a setter without an index is not index-checked at all. -/
def processArrayFields :
    List (String × Option Nat) → (String → Nat) → Except TealishError Unit
  | [], _ => .ok ()
  | (f, some idx) :: rest, counts =>
    if counts f = idx then
      processArrayFields rest (fun g => if g = f then counts f + 1 else counts g)
    else .error (.parseError "Incorrect field array index")
  | (_, none) :: rest, counts => processArrayFields rest counts

theorem setterHere_none_of_head {c : Char} (s : List Char)
    (hc1 : c ≠ '[') (hc2 : c ≠ ':') : setterHere (c :: s) = none := by
  have h2 : bracketTwo (c :: s) = none := by
    rcases s with _ | ⟨d1, _ | ⟨d2, _ | ⟨b, r⟩⟩⟩ <;> simp [bracketTwo, hc1]
  have h1 : bracketOne (c :: s) = none := by
    rcases s with _ | ⟨d1, _ | ⟨b, r⟩⟩ <;> simp [bracketOne, hc1]
  have h0 : colonSpace (c :: s) = none := by
    rcases s with _ | ⟨b, r⟩ <;> simp [colonSpace, hc2]
  simp [setterHere, h2, h1, h0]

theorem setterScan_skip {nm : List Char} (hnm : ∀ c ∈ nm, c ≠ '[' ∧ c ≠ ':')
    (acc t : List Char) :
    setterScan acc (nm ++ t) = setterScan (nm.reverse ++ acc) t := by
  induction nm generalizing acc with
  | nil => simp
  | cons c nm ih =>
    have hc := hnm c (List.mem_cons_self _ _)
    have hrest : ∀ x ∈ nm, x ≠ '[' ∧ x ≠ ':' :=
      fun x hx => hnm x (List.mem_cons_of_mem _ hx)
    rw [List.cons_append, setterScan, setterHere_none_of_head _ hc.1 hc.2]
    rw [ih hrest (c :: acc)]
    rw [List.reverse_cons, List.append_assoc]
    rfl

theorem digit_ne_bracket {c : Char} (hc : c.isDigit = true) :
    c ≠ '[' ∧ c ≠ ':' ∧ c ≠ ']' := by
  refine ⟨?_, ?_, ?_⟩ <;> rintro rfl <;> revert hc <;> decide

theorem setterHere_one_digit {d : Char} (hd : d.isDigit = true)
    (expr : List Char) :
    setterHere ('[' :: d :: ']' :: ':' :: ' ' :: expr) = some (some [d], expr) := by
  have hbr : (']' : Char).isDigit = false := by decide
  have h2 : bracketTwo ('[' :: d :: ']' :: ':' :: ' ' :: expr) = none := by
    simp [bracketTwo, hbr]
  have h1 : bracketOne ('[' :: d :: ']' :: ':' :: ' ' :: expr) =
      some ([d], ':' :: ' ' :: expr) := by
    simp [bracketOne, hd]
  simp [setterHere, h2, h1, colonSpace]

theorem setterHere_two_digits {d1 d2 : Char} (hd1 : d1.isDigit = true)
    (hd2 : d2.isDigit = true) (expr : List Char) :
    setterHere ('[' :: d1 :: d2 :: ']' :: ':' :: ' ' :: expr) =
      some (some [d1, d2], expr) := by
  have h2 : bracketTwo ('[' :: d1 :: d2 :: ']' :: ':' :: ' ' :: expr) =
      some ([d1, d2], ':' :: ' ' :: expr) := by
    simp [bracketTwo, hd1, hd2]
  simp [setterHere, h2, colonSpace]

theorem setterHere_three_digits {d1 d2 d3 : Char} (hd1 : d1.isDigit = true)
    (hd2 : d2.isDigit = true) (hd3 : d3.isDigit = true) (t : List Char) :
    setterHere ('[' :: d1 :: d2 :: d3 :: t) = none := by
  have h2 : bracketTwo ('[' :: d1 :: d2 :: d3 :: t) = none := by
    simp [bracketTwo, (digit_ne_bracket hd3).2.2]
  have h1 : bracketOne ('[' :: d1 :: d2 :: d3 :: t) = none := by
    simp [bracketOne, (digit_ne_bracket hd2).2.2]
  have h0 : colonSpace ('[' :: d1 :: d2 :: d3 :: t) = none := by
    simp [colonSpace]
  simp [setterHere, h2, h1, h0]

theorem setterHere_colon (expr : List Char) :
    setterHere (':' :: ' ' :: expr) = some (none, expr) := by
  have h2 : bracketTwo (':' :: ' ' :: expr) = none := by
    rcases expr with _ | ⟨a, _ | ⟨b, r⟩⟩ <;> simp [bracketTwo]
  have h1 : bracketOne (':' :: ' ' :: expr) = none := by
    rcases expr with _ | ⟨a, r⟩ <;> simp [bracketOne]
  simp [setterHere, h2, h1, colonSpace]
/-- C10: a setter line `Field[i]: expr` is recognized as an array setter
(index captured, subject to the consecutive-index check starting at 0) only
when the bracketed index has one or two digits; with three or more digits
the line still matches but the brackets and digits are absorbed into the
field name, the index is `none`, no index validation occurs, and
`itxn_field Field[NNN]` is emitted verbatim. -/
theorem claim_C10_setter_index_digits (name digits expr : List Char)
    (hname : ∀ c ∈ name, c ≠ '[' ∧ c ≠ ':')
    (hdig : ∀ c ∈ digits, c.isDigit = true) (hne : digits ≠ []) :
    (digits.length ≤ 2 →
      innerTxnFieldSetterMatch
          (name ++ '[' :: (digits ++ ']' :: ':' :: ' ' :: expr)) =
        some (name, some digits, expr)) ∧
    (3 ≤ digits.length →
      innerTxnFieldSetterMatch
          (name ++ '[' :: (digits ++ ']' :: ':' :: ' ' :: expr)) =
        some (name ++ '[' :: (digits ++ [']']), none, expr)) ∧
    (∀ tl exprLines fieldName,
      (innerTxnFieldSetterWriteTeal tl exprLines fieldName).getLast? =
        some ("itxn_field " ++ fieldName)) ∧
    (∀ f rest counts, processArrayFields ((f, none) :: rest) counts =
        processArrayFields rest counts) ∧
    (∀ f idx, (processArrayFields [(f, some idx)] (fun _ => 0) = .ok () ↔
        idx = 0)) := by
  refine ⟨?_, ?_, ?_, ?_, ?_⟩
  · intro hlen
    unfold innerTxnFieldSetterMatch
    rw [setterScan_skip hname [] _]
    rcases digits with _ | ⟨d1, _ | ⟨d2, _ | ⟨d3, ds⟩⟩⟩
    · exact absurd rfl hne
    · have hd1 := hdig d1 (by simp)
      rw [setterScan]
      rw [show ([d1] ++ ']' :: ':' :: ' ' :: expr) = d1 :: ']' :: ':' :: ' ' :: expr
        from rfl]
      rw [setterHere_one_digit hd1 expr]
      simp
    · have hd1 := hdig d1 (by simp)
      have hd2 := hdig d2 (by simp)
      rw [setterScan]
      rw [show ([d1, d2] ++ ']' :: ':' :: ' ' :: expr) =
        d1 :: d2 :: ']' :: ':' :: ' ' :: expr from rfl]
      rw [setterHere_two_digits hd1 hd2 expr]
      simp
    · simp at hlen
  · intro hlen
    unfold innerTxnFieldSetterMatch
    rw [setterScan_skip hname [] _]
    rcases digits with _ | ⟨d1, _ | ⟨d2, _ | ⟨d3, ds⟩⟩⟩
    · exact absurd rfl hne
    · simp at hlen
    · simp at hlen
    · have hd1 := hdig d1 (by simp)
      have hd2 := hdig d2 (by simp)
      have hd3 := hdig d3 (by simp)
      have hds : ∀ c ∈ d1 :: d2 :: d3 :: ds, c ≠ '[' ∧ c ≠ ':' := by
        intro c hc
        have := hdig c hc
        exact ⟨(digit_ne_bracket this).1, (digit_ne_bracket this).2.1⟩
      rw [setterScan]
      rw [show ((d1 :: d2 :: d3 :: ds) ++ ']' :: ':' :: ' ' :: expr) =
        d1 :: d2 :: d3 :: (ds ++ ']' :: ':' :: ' ' :: expr) from by simp]
      rw [setterHere_three_digits hd1 hd2 hd3]
      rw [show (d1 :: d2 :: d3 :: (ds ++ ']' :: ':' :: ' ' :: expr)) =
        ((d1 :: d2 :: d3 :: ds) ++ (']' :: ':' :: ' ' :: expr)) from by simp]
      rw [setterScan_skip hds ('[' :: (name.reverse ++ []))]
      rw [setterScan, setterHere_none_of_head _ (by decide) (by decide)]
      rw [setterScan, setterHere_colon]
      simp [List.reverse_cons, List.reverse_append, List.append_assoc]
  · intro tl exprLines fieldName
    unfold innerTxnFieldSetterWriteTeal
    rw [show ([tl] ++ exprLines ++ ["itxn_field " ++ fieldName]) =
      (tl :: exprLines) ++ ["itxn_field " ++ fieldName] from by simp]
    exact List.getLast?_concat _
  · intro f rest counts
    rfl
  · intro f idx
    constructor
    · intro h
      by_contra hne0
      have : ¬((fun _ : String => 0) f = idx) := by simpa using fun he => hne0 he.symm
      rw [processArrayFields, if_neg this] at h
      cases h
    · rintro rfl
      rfl

/-- Witness for C10: `Accounts[0]` is an array setter with index 0,
`Accounts[100]` is absorbed into the field name with no index, and the
emitted line is `itxn_field Accounts[100]` verbatim. -/
theorem claim_C10_setter_index_digits_witness :
    innerTxnFieldSetterMatch "Accounts[0]: Txn.Sender".data =
      some ("Accounts".data, some ['0'], " Txn.Sender".data.drop 1) ∧
    innerTxnFieldSetterMatch "Accounts[100]: Txn.Sender".data =
      some ("Accounts[100]".data, none, "Txn.Sender".data) ∧
    (innerTxnFieldSetterWriteTeal "// tl" [] "Accounts[100]").getLast? =
      some "itxn_field Accounts[100]" := by
  refine ⟨?_, ?_, ?_⟩
  · have h := (claim_C10_setter_index_digits "Accounts".data ['0']
      "Txn.Sender".data (by decide) (by decide) (by decide)).1 (by decide)
    exact h
  · have h := (claim_C10_setter_index_digits "Accounts".data "100".data
      "Txn.Sender".data (by decide) (by decide) (by decide)).2.1 (by decide)
    exact h
  · exact (claim_C10_setter_index_digits "Accounts".data "100".data
      "Txn.Sender".data (by decide) (by decide) (by decide)).2.2.1
      "// tl" [] "Accounts[100]"

/-! ## Box declarations (nodes.py lines 1981-2039)

`BoxDeclaration.pattern` is
`box<(?P<struct_name>[A-Z][a-zA-Z0-9_]*)> (?P<name>[a-z][a-zA-Z0-9_]*)`
`  = (?P<method>Open|Create)?Box\((?P<key>.*)\)$`.
The greedy character classes are each followed by a literal character
outside the class, and the three method alternatives differ at their first
character, so the regex is equivalent to the deterministic matcher below
(tried in the regex order Open, Create, no prefix).  Note the pattern has
no `OpenOrCreate` alternative even though `write_teal` handles the method
string `"OpenOrCreate"`. -/

/-- Drop a literal prefix: `some rest` iff the list starts with `pre`. -/
def dropLit : List Char → List Char → Option (List Char)
  | [], s => some s
  | _ :: _, [] => none
  | p :: ps, c :: cs => if c = p then dropLit ps cs else none

theorem dropLit_append (p r : List Char) : dropLit p (p ++ r) = some r := by
  induction p with
  | nil => rfl
  | cons c ps ih => simp [dropLit, ih]

/-- Class `[A-Z]`. -/
def isUpperLetter (c : Char) : Bool := 'A' ≤ c && c ≤ 'Z'

/-- Class `[a-z]`. -/
def isLowerLetter (c : Char) : Bool := 'a' ≤ c && c ≤ 'z'

/-- Class `[a-zA-Z0-9_]`. -/
def isIdentChar (c : Char) : Bool := c.isAlpha || c.isDigit || c = '_'

/-- Match `first[a-zA-Z0-9_]*` greedily at the head, returning the matched
group and the remainder. -/
def matchIdentGroup (first : Char → Bool) : List Char →
    Option (List Char × List Char)
  | [] => none
  | c :: r =>
    if first c then some (c :: r.takeWhile isIdentChar, r.dropWhile isIdentChar)
    else none

/-- The `(Open|Create)?Box\(` part, in regex alternation order. -/
def boxDeclMethod (r7 : List Char) : Option (Option (List Char) × List Char) :=
  match dropLit "OpenBox(".data r7 with
  | some r => some (some "Open".data, r)
  | none =>
    match dropLit "CreateBox(".data r7 with
    | some r => some (some "Create".data, r)
    | none => (dropLit "Box(".data r7).map (fun r => (none, r))

/-- The `(?P<key>.*)\)$` part: everything up to the final `)` (the dot does
not match a newline). -/
def boxDeclKey (r8 : List Char) : Option (List Char) :=
  if r8.getLast? = some ')' ∧ '\n' ∉ r8 then some r8.dropLast else none

/-- The result of `re.match(BoxDeclaration.pattern, line)`, returning
`(struct_name, name, method, key)`. -/
def boxDeclMatch (line : List Char) :
    Option (List Char × List Char × Option (List Char) × List Char) :=
  (dropLit "box<".data line).bind fun r1 =>
  (matchIdentGroup isUpperLetter r1).bind fun p1 =>
  (dropLit "> ".data p1.2).bind fun r4 =>
  (matchIdentGroup isLowerLetter r4).bind fun p2 =>
  (dropLit " = ".data p2.2).bind fun r7 =>
  (boxDeclMethod r7).bind fun pm =>
  (boxDeclKey pm.2).map fun key => (p1.1, p2.1, pm.1, key)

/-- Emission of `BoxDeclaration.write_teal` (nodes.py lines 2009-2032): the tl comment,
the key expression, the method-dependent assertion lines, then the store. -/
def boxDeclarationWriteTeal (tl : String) (keyLines : List String)
    (method : Option String) (boxSize : Nat) (structName nameV : String)
    (slot : Nat) : List String :=
  [tl] ++ keyLines ++
  (if method = some "Open" then
    ["dup; box_len; assert; pushint " ++ (toString boxSize ++
      ("; ==; assert // len(box) == " ++ (structName ++ ".size")))]
   else if method = some "Create" then
    ["dup; pushint " ++ (toString boxSize ++
      "; box_create; assert // create & assert created")]
   else if method = some "OpenOrCreate" then
    ["dup; pushint " ++ (toString boxSize ++
      "; box_create; pop // create if didn\x27t already exist")]
   else []) ++
  ["store " ++ (toString slot ++ (" // box:" ++ nameV))]

theorem takeWhile_append_stop {p : Char → Bool} {l : List Char} {c : Char}
    (r : List Char) (hl : ∀ x ∈ l, p x = true) (hc : p c = false) :
    (l ++ c :: r).takeWhile p = l ∧ (l ++ c :: r).dropWhile p = c :: r := by
  induction l with
  | nil => simp [List.takeWhile_cons, List.dropWhile_cons, hc]
  | cons a l ih =>
    have ha := hl a (by simp)
    have hrest : ∀ x ∈ l, p x = true := fun x hx => hl x (by simp [hx])
    obtain ⟨h1, h2⟩ := ih hrest
    simp [List.takeWhile_cons, List.dropWhile_cons, ha, h1, h2]

theorem matchIdentGroup_cons {first : Char → Bool} {c : Char} {l : List Char}
    {c2 : Char} (r : List Char) (hc : first c = true)
    (hl : ∀ x ∈ l, isIdentChar x = true) (hc2 : isIdentChar c2 = false) :
    matchIdentGroup first (c :: (l ++ c2 :: r)) = some (c :: l, c2 :: r) := by
  obtain ⟨h1, h2⟩ := takeWhile_append_stop (p := isIdentChar) r hl hc2
  simp [matchIdentGroup, hc, h1, h2]

theorem boxDeclMethod_openOrCreate (rest : List Char) :
    boxDeclMethod ("OpenOrCreateBox(".data ++ rest) = none := rfl
/-- C8 counterexample: `box<Item> item1 = OpenOrCreateBox(key)` does NOT
match `BoxDeclaration.pattern` (so `Node.__init__` raises a ParseError for
it), while the `Open` prefix of the same line matches. -/
theorem claim_C8_counterexample :
    boxDeclMatch "box<Item> item1 = OpenOrCreateBox(key)".data = none ∧
    boxDeclMatch "box<Item> item1 = OpenBox(key)".data =
      some ("Item".data, "item1".data, some "Open".data, "key".data) := by
  constructor <;> decide

/-- C8 (amended): the box declaration pattern accepts only the method
prefixes `Open`, `Create`, or none: for every struct name, identifier and
key text, the line `box<S> x = OpenOrCreateBox(k)` fails to match (raising
ParseError), while the `write_teal` branch for the method string
`"OpenOrCreate"` -- which is therefore unreachable from parsing -- emits
`box_create` followed by `pop`, discarding the creation result. -/
theorem claim_C8_box_method (s0 : Char) (srest : List Char) (x0 : Char)
    (xrest rest : List Char) (tl : String) (keyLines : List String)
    (boxSize slot : Nat) (structName nameV : String)
    (hs0 : isUpperLetter s0 = true) (hsr : ∀ c ∈ srest, isIdentChar c = true)
    (hx0 : isLowerLetter x0 = true) (hxr : ∀ c ∈ xrest, isIdentChar c = true) :
    boxDeclMatch ("box<".data ++ (s0 :: (srest ++ ("> ".data ++ (x0 :: (xrest ++
        (" = OpenOrCreateBox(".data ++ rest))))))) = none ∧
    boxDeclarationWriteTeal tl keyLines (some "OpenOrCreate") boxSize
        structName nameV slot =
      [tl] ++ keyLines ++
      ["dup; pushint " ++ (toString boxSize ++
        "; box_create; pop // create if didn\x27t already exist")] ++
      ["store " ++ (toString slot ++ (" // box:" ++ nameV))] := by
  constructor
  · show boxDeclMatch ("box<".data ++ (s0 :: (srest ++ ('>' :: ' ' ::
      (x0 :: (xrest ++ (' ' :: '=' :: ' ' ::
        ("OpenOrCreateBox(".data ++ rest)))))))) = none
    unfold boxDeclMatch
    rw [dropLit_append]
    rw [Option.some_bind]
    rw [matchIdentGroup_cons _ hs0 hsr (by decide)]
    rw [Option.some_bind]
    rw [show dropLit "> ".data ('>' :: ' ' :: (x0 :: (xrest ++ (' ' :: '=' :: ' ' ::
        ("OpenOrCreateBox(".data ++ rest))))) = some (x0 :: (xrest ++
        (' ' :: '=' :: ' ' :: ("OpenOrCreateBox(".data ++ rest)))) from rfl]
    rw [Option.some_bind]
    rw [matchIdentGroup_cons _ hx0 hxr (by decide)]
    rw [Option.some_bind]
    rw [show dropLit " = ".data (' ' :: '=' :: ' ' ::
        ("OpenOrCreateBox(".data ++ rest)) =
      some ("OpenOrCreateBox(".data ++ rest) from rfl]
    rw [Option.some_bind]
    rw [boxDeclMethod_openOrCreate]
    rfl
  · rfl

/-- Witness for C8 at a concrete struct name, identifier and key. -/
theorem claim_C8_box_method_witness :
    boxDeclMatch ("box<".data ++ ('I' :: ("tem".data ++ ("> ".data ++
      ('i' :: ("tem1".data ++ (" = OpenOrCreateBox(".data ++ "key)".data)))))))
      = none :=
  (claim_C8_box_method 'I' "tem".data 'i' "tem1".data "key)".data
    "// tl" [] 8 0 "Item" "item1" (by decide) (by decide) (by decide)
    (by decide)).1

/-! ## Inner transactions (nodes.py lines 980-1109 and 309-355)

`InnerTxn.write_teal` (lines 1045-1063) begins with
`self.compiler.use_inner_txns_macro = False` and only then tests the flag,
so the `callsub _itxn_begin`/`callsub _itxn_submit` branch is dead code and
the flag is false for every later reader, including the `Program.write_teal`
epilogue check. -/

/-- Emission of `InnerTxn.write_teal`: returns the written lines and the compiler flag
after the call.  The parameter is the incoming `use_inner_txns_macro` value;
the method overwrites it with `False` before the branch. -/
def innerTxnWriteTeal (macroEnabled : Bool) (tl : String)
    (setterLines : List String) : List String × Bool :=
  let flagAfterAssign := false
  if flagAfterAssign then
    ([tl, "callsub _itxn_begin"] ++ setterLines ++
      ["callsub _itxn_submit", "// end inner_txn"], flagAfterAssign)
  else
    ([tl, "itxn_begin"] ++ setterLines ++
      ["itxn_submit", "// end inner_txn"], flagAfterAssign)

/-- Emission of `InnerGroup.write_teal` (lines 1094-1102) for a group whose children are
inner txns, threading the compiler flag through the children. -/
def innerGroupWriteTeal (flag : Bool) (tl : String)
    (txns : List (String × List String)) : List String × Bool :=
  let step := txns.foldl (fun acc t =>
    let r := innerTxnWriteTeal acc.2 t.1 t.2
    (acc.1 ++ r.1, r.2)) (([] : List String), flag)
  ([tl, "callsub _itxn_group_begin"] ++ step.1 ++
    ["callsub _itxn_group_submit", "// end inner_group"], step.2)

/-- Flag logic of `Program.process` (lines 313-322): enable the macro when it is unset
(`None`) and the program contains an `InnerGroup`. -/
def programProcessMacroFlag (macroSetting : Option Bool)
    (hasInnerGroup : Bool) : Option Bool :=
  if macroSetting = none ∧ hasInnerGroup then some true
  else macroSetting

/-- The `inner_group_flag` scratch slot is allocated at `max_slot + 1`
(`Program.process`, lines 318-321). -/
def inner_group_flag_slot (maxSlot : Nat) : Nat := maxSlot + 1

/-- The four macro subroutines written by the `Program.write_teal` epilogue
(lines 330-355), after slicing off the common indentation. -/
def innerTxnsMacroTeal (slot : Nat) : List String :=
  ["",
   "_itxn_group_begin:",
   "  load " ++ (toString slot ++ "; !; assert // ensure no group active"),
   "  int 1; store " ++ (toString slot ++ "; retsub // set group flag"),
   "",
   "_itxn_begin:",
   "  load " ++ toString slot,
   "  switch _itxn_begin__0 _itxn_begin__1 _itxn_begin__2",
   "  err",
   "  _itxn_begin__0: itxn_begin; retsub // no group",
   "  _itxn_begin__1: itxn_begin; int 2; store " ++
     (toString slot ++ "; retsub // start first txn of group"),
   "  _itxn_begin__2: itxn_next; retsub // start next txn of group",
   "",
   "_itxn_submit:",
   "  load " ++ toString slot,
   "  bz _itxn_submit__0",
   "  retsub // in a group, don\x27t submit",
   "  _itxn_submit__0: itxn_submit; retsub // no group, submit",
   "",
   "_itxn_group_submit:",
   "  itxn_submit",
   "  int 0; store " ++ (toString slot ++ "; retsub // set group flag to 0"),
   ""]

/-- Emission of `Program.write_teal` (lines 324-355): the child statements, then the
macro subroutines only when `use_inner_txns_macro` is still truthy after
the children have been written. -/
def programWriteTealBody (childLines : List String)
    (flagAfterChildren : Bool) (slot : Nat) : List String :=
  childLines ++ (if flagAfterChildren then innerTxnsMacroTeal slot else [])

/-- C1 (code bug): `InnerTxn.write_teal` overwrites `use_inner_txns_macro`
with `False` before testing it, so even with the macro enabled every
`inner_txn:` emits `itxn_begin`/`itxn_submit` (never
`callsub _itxn_begin`/`callsub _itxn_submit`) and leaves the flag false;
consequently a program whose `inner_group:` contains an `inner_txn:` emits
`callsub _itxn_group_begin`/`callsub _itxn_group_submit` but no macro
subroutine epilogue (the label `_itxn_group_begin:` is absent), contrary to
the claim. -/
theorem claim_C1_inner_txn_macro_dead (flag : Bool) (tl : String)
    (setterLines : List String) :
    (innerTxnWriteTeal flag tl setterLines =
      ([tl, "itxn_begin"] ++ setterLines ++
        ["itxn_submit", "// end inner_txn"], false)) ∧
    (programProcessMacroFlag none true = some true) ∧
    ("callsub _itxn_group_begin" ∈
      programWriteTealBody
        (innerGroupWriteTeal true "// tl:3: inner_group:"
          [("// tl:4: inner_txn:", ["pushint 1", "itxn_field TypeEnum"])]).1
        (innerGroupWriteTeal true "// tl:3: inner_group:"
          [("// tl:4: inner_txn:", ["pushint 1", "itxn_field TypeEnum"])]).2
        (inner_group_flag_slot 0)) ∧
    ("callsub _itxn_begin" ∉
      programWriteTealBody
        (innerGroupWriteTeal true "// tl:3: inner_group:"
          [("// tl:4: inner_txn:", ["pushint 1", "itxn_field TypeEnum"])]).1
        (innerGroupWriteTeal true "// tl:3: inner_group:"
          [("// tl:4: inner_txn:", ["pushint 1", "itxn_field TypeEnum"])]).2
        (inner_group_flag_slot 0)) ∧
    ("itxn_begin" ∈
      programWriteTealBody
        (innerGroupWriteTeal true "// tl:3: inner_group:"
          [("// tl:4: inner_txn:", ["pushint 1", "itxn_field TypeEnum"])]).1
        (innerGroupWriteTeal true "// tl:3: inner_group:"
          [("// tl:4: inner_txn:", ["pushint 1", "itxn_field TypeEnum"])]).2
        (inner_group_flag_slot 0)) ∧
    ("_itxn_group_begin:" ∉
      programWriteTealBody
        (innerGroupWriteTeal true "// tl:3: inner_group:"
          [("// tl:4: inner_txn:", ["pushint 1", "itxn_field TypeEnum"])]).1
        (innerGroupWriteTeal true "// tl:3: inner_group:"
          [("// tl:4: inner_txn:", ["pushint 1", "itxn_field TypeEnum"])]).2
        (inner_group_flag_slot 0)) := by
  refine ⟨rfl, rfl, by decide, by decide, by decide, by decide⟩

/-! ## Unnamed for loop (nodes.py `For_Statement.write_teal` lines 1560-1577)

The unnamed `for _ in A:B:` loop keeps the counter on the stack (`dup`).
The emitted order at the end of the loop is
`pushint 1; +; dup; b l{N}_for; pop; l{N}_end:` -- the `pop` sits between
the unconditional back-branch and the end label, so the exit branch
(`bnz l{N}_end`) jumps past it and it is never executed. -/

/-- The subset of TEAL instructions needed for the unnamed-for lowering. -/
inductive TInstr
  | pushint (n : Nat)
  | dup
  | pop
  | eq
  | add
  | bnz (l : String)
  | br (l : String)
  | label (l : String)
  | comment (s : String)
deriving DecidableEq

/-- Emission of `For_Statement.write_teal`: the tl comment, the start expression, `dup`,
the start label, the end expression, `==`, `bnz` to the end label, the
body, increment, `dup`, back-branch, `pop`, end label -- in exactly the
order of the `writer.write` calls. -/
def forUnderscoreWriteTeal (N : Nat) (tl : String)
    (startLines endLines body : List TInstr) : List TInstr :=
  [.comment tl] ++ startLines ++
  [.dup, .label ("l" ++ (toString N ++ "_for"))] ++ endLines ++
  [.eq, .bnz ("l" ++ (toString N ++ "_end"))] ++ body ++
  [.pushint 1, .add, .dup, .br ("l" ++ (toString N ++ "_for")), .pop,
   .label ("l" ++ (toString N ++ "_end"))]

/-- Index of a label instruction (branch targets resolve to labels). -/
def findLabelIdx (p : List TInstr) (l : String) : Option Nat :=
  p.findIdx? (fun i => decide (i = TInstr.label l))

/-- A small fuelled interpreter for the `TInstr` subset: `bnz` branches on a
nonzero top of stack, `b` branches unconditionally, labels and comments are
no-ops, and running past the end halts with the current stack. -/
def runTeal : Nat → List TInstr → Nat → List Nat → Option (List Nat)
  | 0, _, _, _ => none
  | fuel + 1, p, pc, st =>
    match p.get? pc with
    | none => some st
    | some instr =>
      match instr, st with
      | .comment _, st => runTeal fuel p (pc + 1) st
      | .label _, st => runTeal fuel p (pc + 1) st
      | .pushint n, st => runTeal fuel p (pc + 1) (n :: st)
      | .dup, x :: st => runTeal fuel p (pc + 1) (x :: x :: st)
      | .pop, _ :: st => runTeal fuel p (pc + 1) st
      | .eq, a :: b :: st => runTeal fuel p (pc + 1) ((if b = a then 1 else 0) :: st)
      | .add, a :: b :: st => runTeal fuel p (pc + 1) ((b + a) :: st)
      | .bnz l, x :: st =>
        if x ≠ 0 then (findLabelIdx p l).bind fun j => runTeal fuel p j st
        else runTeal fuel p (pc + 1) st
      | .br l, st => (findLabelIdx p l).bind fun j => runTeal fuel p j st
      | _, _ => none

/-- C4 (code bug): in the emitted unnamed-for loop the `pop` is placed
after the unconditional `b l{N}_for` and before `l{N}_end:`, so it is not
executed when the exit branch fires: running `for _ in 0:0:` (empty body)
halts with the duplicated counter still on the stack, whereas the
claimed/spec placement of the `pop` after the end label would leave the
stack empty. -/
theorem claim_C4_for_pop_unreachable :
    (∃ pre, forUnderscoreWriteTeal 0 "// tl:2: for _ in 0:0:"
        [.pushint 0] [.pushint 0] [] =
      pre ++ [.br "l0_for", .pop, .label "l0_end"]) ∧
    runTeal 32 (forUnderscoreWriteTeal 0 "// tl:2: for _ in 0:0:"
        [.pushint 0] [.pushint 0] []) 0 [] = some [0] ∧
    runTeal 32 [.comment "// tl:2: for _ in 0:0:", .pushint 0, .dup,
        .label "l0_for", .pushint 0, .eq, .bnz "l0_end", .pushint 1, .add,
        .dup, .br "l0_for", .label "l0_end", .pop] 0 [] = some [] := by
  refine ⟨⟨[.comment "// tl:2: for _ in 0:0:", .pushint 0, .dup,
    .label "l0_for", .pushint 0, .eq, .bnz "l0_end", .pushint 1, .add,
    .dup], by decide⟩, by decide, by decide⟩

/-! ## If statements (nodes.py `IfStatement` lines 1232-1380)

`IfStatement.__init__` takes `conditional_index` from the compiler counter
and increments it; `add_elif`/`add_else` assign the labels
`l{N}_elif_{i}`/`l{N}_else`; `process` assigns each child `next_label` to
the label of the following child (the last child gets the end label) and the
branch target of the statement itself to the label of the second child (or the end
label); `write_teal` emits condition, `bz`/`bnz`, the then body, a `b` to
the end label only when there are elifs or an else, the elif and else
chunks, and the end label last. -/

/-- One `elif` branch: its tl comment line, `not` modifier, condition
emission lines, and body lines. -/
structure ElifData where
  tl : String
  notMod : Bool
  cond : List String
  body : List String
deriving DecidableEq

def elifLabel (N i : Nat) : String :=
  "l" ++ (toString N ++ ("_elif_" ++ toString i))

def elseLabel (N : Nat) : String := "l" ++ (toString N ++ "_else")

def endLabel (N : Nat) : String := "l" ++ (toString N ++ "_end")

/-- A child node of an `IfStatement` (`IfThen`, `Elif` or `Else`), carrying
the label assigned at `add_*` time. -/
inductive IfChild
  | ifThen (body : List String)
  | elifB (tl : String) (notMod : Bool) (cond : List String) (label : String)
      (body : List String)
  | elseB (tl : String) (label : String) (body : List String)
deriving DecidableEq

/-- The label of a child (`""` for the IfThen, as in `add_if_then`). -/
def IfChild.label : IfChild → String
  | .ifThen _ => ""
  | .elifB _ _ _ l _ => l
  | .elseB _ l _ => l

/-- Python `enumerate` starting at `n`. -/
def enumFrom {A : Type} (n : Nat) : List A → List (Nat × A)
  | [] => []
  | x :: xs => (n, x) :: enumFrom (n + 1) xs

def mkElifChild (N : Nat) (p : Nat × ElifData) : IfChild :=
  .elifB p.2.tl p.2.notMod p.2.cond (elifLabel N p.1) p.2.body

def elseChildList (N : Nat) (els : Option (String × List String)) :
    List IfChild :=
  match els with
  | some e => [.elseB e.1 (elseLabel N) e.2]
  | none => []

/-- The `child_nodes` of an IfStatement: IfThen, elifs, optional Else, with
labels assigned by position. -/
def ifChildren (N : Nat) (thenBody : List String) (elifs : List ElifData)
    (els : Option (String × List String)) : List IfChild :=
  .ifThen thenBody ::
    ((enumFrom 0 elifs).map (mkElifChild N) ++ elseChildList N els)

/-- The `next_label` assignment of `IfStatement.process`: consecutive pairs
get the label of the next child, the last child gets the end label. -/
def assignNexts (endL : String) : List IfChild → List (IfChild × String)
  | [] => []
  | [c] => [(c, endL)]
  | c :: c2 :: rest => (c, c2.label) :: assignNexts endL (c2 :: rest)

/-- The branch target of the statement itself: the label of the second child, or the end
label when the IfThen is the only child. -/
def ifNextLabel (endL : String) : List IfChild → String
  | _ :: c2 :: _ => c2.label
  | _ => endL

/-- Emission of one child with its assigned next label.  `isLast` is true
exactly for the last child: the source guards the trailing `b` with
`self.elifs or self.else_` (IfThen) and
`i != len(self.elifs) - 1 or self.else_` (elif), both equivalent to the
child not being last. -/
def emitIfChild (endL : String) (c : IfChild) (nxt : String) (isLast : Bool) :
    List String :=
  match c with
  | .ifThen body =>
    ("// then:" :: body) ++ (if isLast then [] else ["b " ++ endL])
  | .elifB tl notMod cond lbl body =>
    [lbl ++ ":", tl] ++ cond ++
    [(if notMod then "bnz " ++ nxt else "bz " ++ nxt)] ++ body ++
    (if isLast then [] else ["b " ++ endL])
  | .elseB tl lbl body => [lbl ++ ":", tl] ++ body

/-- Emission of the paired child list, marking only the final child as
last. -/
def emitIfChildren (endL : String) : List (IfChild × String) → List String
  | [] => []
  | [p] => emitIfChild endL p.1 p.2 true
  | p :: q :: rest => emitIfChild endL p.1 p.2 false ++ emitIfChildren endL (q :: rest)

/-- Emission of `IfStatement.write_teal` composed with the label assignment of
`IfStatement.process`: tl comment, condition, `bz`/`bnz` to the successor,
then the children, then the end label. -/
def ifStatementWriteTeal (N : Nat) (tl : String) (notMod : Bool)
    (cond thenBody : List String) (elifs : List ElifData)
    (els : Option (String × List String)) : List String :=
  [tl] ++ cond ++
  [(if notMod then "bnz " ++ ifNextLabel (endLabel N) (ifChildren N thenBody elifs els)
    else "bz " ++ ifNextLabel (endLabel N) (ifChildren N thenBody elifs els))] ++
  emitIfChildren (endLabel N)
    (assignNexts (endLabel N) (ifChildren N thenBody elifs els)) ++
  [endLabel N ++ ":"]

/-- The successor label of elif `j` among `n` elifs, per the spec: the next
elif, else the else label, else the end label. -/
def elifSuccLabel (N n : Nat) (els : Option (String × List String)) (j : Nat) :
    String :=
  if j + 1 < n then elifLabel N (j + 1)
  else match els with
    | some _ => elseLabel N
    | none => endLabel N

/-- The branch target of the initial `bz`/`bnz`, per the spec: the first
elif if any, else the else label, else the end label. -/
def ifCondSuccLabel (N n : Nat) (els : Option (String × List String)) : String :=
  if 0 < n then elifLabel N 0
  else match els with
    | some _ => elseLabel N
    | none => endLabel N

/-- The else chunk: its label line, tl comment, body. -/
def elseEmit (N : Nat) (els : Option (String × List String)) : List String :=
  match els with
  | some e => [elseLabel N ++ ":", e.1] ++ e.2
  | none => []

/-- Spec-side emission of an `if` statement, following the specification
text amended only in the placement of the unconditional `b`: condition,
`bz` (or `bnz` under `not`) to the successor label, the then body, a
`b l{N}_end` exactly when the statement has at least one elif or an else,
the label of each elif before its condition with its own successor and a
trailing `b` except for a last elif without else, the else label before the
else body, and `l{N}_end` emitted last. -/
def ifStatementSpecEmission (N : Nat) (tl : String) (notMod : Bool)
    (cond thenBody : List String) (elifs : List ElifData)
    (els : Option (String × List String)) : List String :=
  [tl] ++ cond ++
  [(if notMod then "bnz " ++ ifCondSuccLabel N elifs.length els
    else "bz " ++ ifCondSuccLabel N elifs.length els)] ++
  ("// then:" :: thenBody) ++
  (if elifs.length = 0 ∧ els = none then [] else ["b " ++ endLabel N]) ++
  List.join ((enumFrom 0 elifs).map (fun p =>
    [elifLabel N p.1 ++ ":", p.2.tl] ++ p.2.cond ++
    [(if p.2.notMod then "bnz " ++ elifSuccLabel N elifs.length els p.1
      else "bz " ++ elifSuccLabel N elifs.length els p.1)] ++
    p.2.body ++
    (if p.1 + 1 = elifs.length ∧ els = none then []
     else ["b " ++ endLabel N]))) ++
  elseEmit N els ++
  [endLabel N ++ ":"]
theorem emitIfChildren_cons_cons (endL : String) (x : IfChild × String)
    (c : IfChild) (rest : List IfChild) :
    emitIfChildren endL (x :: assignNexts endL (c :: rest)) =
      emitIfChild endL x.1 x.2 false ++
        emitIfChildren endL (assignNexts endL (c :: rest)) := by
  cases rest <;> rfl

theorem emit_elifs (N : Nat) (els : Option (String × List String)) (n : Nat)
    (l : List ElifData) :
    ∀ i : Nat, i + l.length = n →
    emitIfChildren (endLabel N)
      (assignNexts (endLabel N)
        ((enumFrom i l).map (mkElifChild N) ++ elseChildList N els)) =
    List.join ((enumFrom i l).map (fun p =>
      [elifLabel N p.1 ++ ":", p.2.tl] ++ p.2.cond ++
      [(if p.2.notMod then "bnz " ++ elifSuccLabel N n els p.1
        else "bz " ++ elifSuccLabel N n els p.1)] ++
      p.2.body ++
      (if p.1 + 1 = n ∧ els = none then [] else ["b " ++ endLabel N]))) ++
    elseEmit N els := by
  induction l with
  | nil =>
    intro i hi
    cases els with
    | none => rfl
    | some e => rfl
  | cons e l2 ih =>
    intro i hi
    cases l2 with
    | nil =>
      cases els with
      | none =>
        have hn : n = i + 1 := by simp at hi; omega
        subst hn
        have hsucc : elifSuccLabel N (i + 1) none i = endLabel N := by
          unfold elifSuccLabel
          rw [if_neg (by omega)]
        simp only [enumFrom, List.map_cons, List.map_nil, elseChildList,
          List.append_nil, List.nil_append, assignNexts, emitIfChildren,
          List.join, mkElifChild, emitIfChild, elseEmit, hsucc]
        simp
      | some e2 =>
        have hn : n = i + 1 := by simp at hi; omega
        subst hn
        have hsucc : elifSuccLabel N (i + 1) (some e2) i = elseLabel N := by
          unfold elifSuccLabel
          rw [if_neg (by omega)]
        simp only [enumFrom, List.map_cons, List.map_nil, elseChildList,
          List.nil_append, assignNexts, emitIfChildren, List.join,
          mkElifChild, emitIfChild, IfChild.label, elseEmit, hsucc]
        simp
    | cons e2 l3 =>
      have hlen : i + 1 + (e2 :: l3).length = n := by simp at hi ⊢; omega
      have hsucc : elifSuccLabel N n els i = elifLabel N (i + 1) := by
        unfold elifSuccLabel
        rw [if_pos (by simp at hi; omega)]
      have hlast : ¬(i + 1 = n ∧ els = none) := by
        rintro ⟨h1, _⟩
        simp at hi
        omega
      have hchain :
          (enumFrom i (e :: e2 :: l3)).map (mkElifChild N) ++ elseChildList N els =
            mkElifChild N (i, e) ::
              ((enumFrom (i + 1) (e2 :: l3)).map (mkElifChild N) ++
                elseChildList N els) := by
        simp [enumFrom]
      rw [hchain]
      have hcons :
          (enumFrom (i + 1) (e2 :: l3)).map (mkElifChild N) ++ elseChildList N els =
            mkElifChild N (i + 1, e2) ::
              ((enumFrom (i + 2) l3).map (mkElifChild N) ++ elseChildList N els) := by
        simp [enumFrom]
      rw [hcons, assignNexts, emitIfChildren_cons_cons, ← hcons]
      rw [ih (i + 1) hlen]
      have hlbl : (mkElifChild N (i + 1, e2)).label = elifLabel N (i + 1) := rfl
      rw [hlbl]
      simp only [enumFrom, List.map_cons, List.join, mkElifChild, emitIfChild,
        hsucc]
      rw [if_neg hlast]
      simp [List.append_assoc]

/-- C6 counterexample: a plain `if` with no elif and no else emits no
unconditional `b l{N}_end` after the then body (the end label directly
follows), contrary to the claimed emission shape. -/
theorem claim_C6_counterexample :
    "b l0_end" ∉ ifStatementWriteTeal 0 "// tl:2: if x:" false ["load 0"]
      ["pushint 1"] [] none ∧
    ifStatementWriteTeal 0 "// tl:2: if x:" false ["load 0"] ["pushint 1"]
      [] none =
      ["// tl:2: if x:", "load 0", "bz l0_end", "// then:", "pushint 1",
       "l0_end:"] := by
  constructor <;> decide

/-- C6 (amended): the emission of an `if` statement is the condition,
`bz` (`bnz` under the `not` modifier) to the successor label, the then
body, an unconditional `b l{N}_end` exactly when the statement has at
least one elif or an else (and likewise after each elif body except after
a final elif with no else), the label of each elif placed before its condition,
the else label before the else body, and `l{N}_end` emitted last, with N
the conditional index of the statement. -/
theorem claim_C6_if_emission (N : Nat) (tl : String) (notMod : Bool)
    (cond thenBody : List String) (elifs : List ElifData)
    (els : Option (String × List String)) :
    ifStatementWriteTeal N tl notMod cond thenBody elifs els =
      ifStatementSpecEmission N tl notMod cond thenBody elifs els := by
  have h1 : ifNextLabel (endLabel N) (ifChildren N thenBody elifs els) =
      ifCondSuccLabel N elifs.length els := by
    cases elifs with
    | nil =>
      cases els with
      | none => rfl
      | some e => rfl
    | cons e l =>
      simp [ifChildren, enumFrom, elseChildList, ifNextLabel, ifCondSuccLabel,
        mkElifChild, IfChild.label]
  have h2 : emitIfChildren (endLabel N)
      (assignNexts (endLabel N) (ifChildren N thenBody elifs els)) =
    ("// then:" :: thenBody) ++
    (if elifs.length = 0 ∧ els = none then [] else ["b " ++ endLabel N]) ++
    List.join ((enumFrom 0 elifs).map (fun p =>
      [elifLabel N p.1 ++ ":", p.2.tl] ++ p.2.cond ++
      [(if p.2.notMod then "bnz " ++ elifSuccLabel N elifs.length els p.1
        else "bz " ++ elifSuccLabel N elifs.length els p.1)] ++
      p.2.body ++
      (if p.1 + 1 = elifs.length ∧ els = none then []
       else ["b " ++ endLabel N]))) ++
    elseEmit N els := by
    cases elifs with
    | nil =>
      cases els with
      | none => simp [ifChildren, enumFrom, elseChildList, assignNexts,
          emitIfChildren, emitIfChild, elseEmit]
      | some e =>
        simp only [ifChildren, enumFrom, elseChildList, List.map_nil,
          List.nil_append, assignNexts, IfChild.label, emitIfChildren,
          emitIfChild, elseEmit, List.length_nil]
        rw [if_neg (by simp)]
        simp
    | cons e l =>
      have hchain : ifChildren N thenBody (e :: l) els =
          .ifThen thenBody ::
            ((enumFrom 0 (e :: l)).map (mkElifChild N) ++ elseChildList N els) := rfl
      have hcons : (enumFrom 0 (e :: l)).map (mkElifChild N) ++ elseChildList N els =
          mkElifChild N (0, e) ::
            ((enumFrom 1 l).map (mkElifChild N) ++ elseChildList N els) := by
        simp [enumFrom]
      rw [hchain, hcons, assignNexts, emitIfChildren_cons_cons, ← hcons]
      rw [emit_elifs N els (e :: l).length (e :: l) 0 (by simp)]
      have hite : emitIfChild (endLabel N) (IfChild.ifThen thenBody)
          (mkElifChild N (0, e)).label false =
        ("// then:" :: thenBody) ++ ["b " ++ endLabel N] := rfl
      rw [hite]
      rw [if_neg (by simp)]
      simp [List.append_assoc]
  unfold ifStatementWriteTeal ifStatementSpecEmission
  rw [h1, h2]
  simp [List.append_assoc]

end Tealish
